import Mathlib

set_option synthInstance.maxSize 1024

/-!
Verification of the HotShot vote-accumulator subsystem
(src/crates/types/src/vote.rs).

Shallow embedding conventions:
* `EncodedPublicKey`, `EncodedSignature`, commitments, vote tokens and
  stake-table entries are opaque byte blobs / scalars in the source; they are
  modelled as `Nat`.  Signature decoding (`bincode_opts().deserialize`) is
  total on the inputs the protocol admits, so the pure signature form equals
  the encoded one in the model.
* A vote token's `vote_count()` is the token value itself.
* `BTreeMap` / `HashMap` are modelled as association lists with
  replace-on-insert semantics (`alistInsert`); the source only uses
  lookup / contains_key / entry-or-insert / insert / remove on them.
* `BitVec` (the `signers` bitset) is a `List Bool`; `bitvec`'s
  `get(i)` is the partial index `l[i]?`, `set i true` is `List.set` (theorems about
  appends that reach `set` carry an in-range hypothesis, matching the
  panic-freedom precondition of the source).
* `Either<Self, AssembledSignature>` is `Sum`; `Either::Left` is `Sum.inl`.
* Stake arithmetic is on `Nat`; spec section 4.1 declares u64 overflow a
  protocol violation, so unbounded arithmetic agrees with the source on all
  admitted executions.
* The legacy `VoteAccumulator::append` has an `unimplemented!()` (panic) arm
  for `VoteData::Timeout`; its model returns `Option`, with `none` for the
  panic.
-/

/-- Association-list lookup, modelling map lookup keyed by `Nat`. -/
def alistLookup {α : Type} : List (Nat × α) → Nat → Option α
  | [], _ => none
  | (k2, v) :: rest, k => if k2 = k then some v else alistLookup rest k

/-- Association-list insert with replace-on-collision, modelling
`BTreeMap::insert` / `HashMap::insert`. -/
def alistInsert {α : Type} : List (Nat × α) → Nat → α → List (Nat × α)
  | [], k, v => [(k, v)]
  | (k2, v2) :: rest, k, v =>
    if k2 = k then (k, v) :: rest else (k2, v2) :: alistInsert rest k v

/-- Association-list removal of a key, modelling `HashMap::remove`. -/
def alistRemove {α : Type} : List (Nat × α) → Nat → List (Nat × α)
  | [], _ => []
  | (k2, v2) :: rest, k =>
    if k2 = k then rest else (k2, v2) :: alistRemove rest k

/-- `VoteData`: the tagged enum naming what is being voted on
(vote.rs, `traits::election::VoteData`), with all commitments as `Nat`. -/
inductive VoteData where
  | DA (c : Nat)
  | Yes (c : Nat)
  | No (c : Nat)
  | Timeout (c : Nat)
  | ViewSyncPreCommit (c : Nat)
  | ViewSyncCommit (c : Nat)
  | ViewSyncFinalize (c : Nat)
deriving DecidableEq, Repr

/-- A vote as the accumulators observe it: encoded signer key
(`get_key().to_bytes()`), encoded signature share (`get_signature()`),
vote token (`get_vote_token()`, whose `vote_count` is the value itself)
and the signed-over `VoteData` (`get_data()`). -/
structure Vote where
  key : Nat
  sig : Nat
  token : Nat
  data : VoteData
deriving DecidableEq, Repr

/-- Inner-map entry of a `VoteMap`: `(EncodedSignature, VoteData, Token)`. -/
abbrev VoteEntry := Nat × VoteData × Nat

/-- The inner `BTreeMap<EncodedPublicKey, (EncodedSignature, VoteData, TOKEN)>`. -/
abbrev InnerMap := List (Nat × VoteEntry)

/-- `VoteMap<COMMITMENT, TOKEN>`: commitment to
`(accumulated stake, per-voter inner map)` (vote.rs line 761). -/
abbrev VoteMap := List (Nat × (Nat × InnerMap))

/-- Accumulated stake recorded for commitment `c` (0 when absent). -/
def VoteMap.stakeAt (m : VoteMap) (c : Nat) : Nat :=
  ((alistLookup m c).getD (0, [])).1

/-- Inner voter map recorded for commitment `c` (empty when absent). -/
def VoteMap.votersAt (m : VoteMap) (c : Nat) : InnerMap :=
  ((alistLookup m c).getD (0, [])).2

/-- The state mutation performed by `entry(c).or_insert_with(|| (0, BTreeMap::new()))`:
if `c` is absent, an empty tally is inserted into the map. -/
def VoteMap.materialize (m : VoteMap) (c : Nat) : VoteMap :=
  match alistLookup m c with
  | some _ => m
  | none => alistInsert m c (0, [])

/-- Result of `SignatureKey::get_public_parameter(entries, threshold)`,
kept as symbolic data. -/
structure PublicParameter where
  entries : List Nat
  threshold : Nat
deriving DecidableEq, Repr

/-- `get_public_parameter` from the signature-key capability. -/
def getPublicParameter (entries : List Nat) (threshold : Nat) : PublicParameter :=
  ⟨entries, threshold⟩

/-- Result of `SignatureKey::assemble(pp, signers, sig_lists)`, kept symbolic. -/
structure AssembledSig where
  pp : PublicParameter
  signers : List Bool
  sigs : List Nat
deriving DecidableEq, Repr

/-- `assemble` from the signature-key capability. -/
def assemble (pp : PublicParameter) (signers : List Bool) (sigs : List Nat) :
    AssembledSig :=
  ⟨pp, signers, sigs⟩

/-- `AssembledSignature`: the certificate payload variants produced by the
accumulators in vote.rs. -/
inductive AssembledSignature where
  | DA (s : AssembledSig)
  | Yes (s : AssembledSig)
  | No (s : AssembledSig)
  | ViewSyncPreCommit (s : AssembledSig)
  | ViewSyncCommit (s : AssembledSig)
  | ViewSyncFinalize (s : AssembledSig)
deriving DecidableEq, Repr

/-- The tag (kind) of an assembled signature, for comparing outcomes. -/
inductive CertKind where
  | DA
  | Yes
  | No
  | ViewSyncPreCommit
  | ViewSyncCommit
  | ViewSyncFinalize
deriving DecidableEq, Repr

/-- Kind of an `AssembledSignature`. -/
def AssembledSignature.kind : AssembledSignature → CertKind
  | AssembledSignature.DA _ => CertKind.DA
  | AssembledSignature.Yes _ => CertKind.Yes
  | AssembledSignature.No _ => CertKind.No
  | AssembledSignature.ViewSyncPreCommit _ => CertKind.ViewSyncPreCommit
  | AssembledSignature.ViewSyncCommit _ => CertKind.ViewSyncCommit
  | AssembledSignature.ViewSyncFinalize _ => CertKind.ViewSyncFinalize

/-- Kind of the certificate produced by a run, `none` when no certificate
was produced. -/
def resultKind {α : Type} : Sum α AssembledSignature → Option CertKind
  | Sum.inl _ => none
  | Sum.inr cert => some cert.kind

/-- Number of set bits of the `signers` bitset (`popcount`). -/
def countTrue : List Bool → Nat
  | [] => 0
  | b :: rest => (if b then 1 else 0) + countTrue rest

/-- `DAVoteAccumulator` (vote.rs line 338): one vote map, success threshold,
signature list and signers bitset.  `PhantomData` fields are dropped. -/
structure DAVoteAccumulator where
  da_vote_outcomes : VoteMap
  success_threshold : Nat
  sig_lists : List Nat
  signers : List Bool
deriving DecidableEq, Repr

/-- The committed mutation of an accepted DA vote (vote.rs lines 396-404):
set the signer bit, push the pure signature, credit the DA tally and record
the voter in the inner map. -/
def DAVoteAccumulator.credit (self : DAVoteAccumulator) (vote : Vote) (c : Nat)
    (vote_node_id : Nat) : DAVoteAccumulator :=
  { self with
    da_vote_outcomes :=
      alistInsert self.da_vote_outcomes c
        (VoteMap.stakeAt self.da_vote_outcomes c + vote.token,
         alistInsert (VoteMap.votersAt self.da_vote_outcomes c) vote.key
           (vote.sig, vote.data, vote.token)),
    signers := self.signers.set vote_node_id true,
    sig_lists := self.sig_lists ++ [vote.sig] }

/-- Body of `DAVoteAccumulator::append` after the kind filter has extracted
the DA commitment `c` (vote.rs lines 361-425).  The tally values are read
through the defaulting accessors, which matches reading the
`entry(..).or_insert_with(..)` reference; the map state returned on the
rejection paths carries the materialized empty tally exactly as the source's
`self` does.  On a fire the source's `remove` acts on the consumed `self`
and is not observable. -/
def DAVoteAccumulator.appendDA (self : DAVoteAccumulator) (vote : Vote) (c : Nat)
    (vote_node_id : Nat) (stake_table_entries : List Nat) :
    Sum DAVoteAccumulator AssembledSignature :=
  if (alistLookup (VoteMap.votersAt self.da_vote_outcomes c) vote.key).isSome then
    Sum.inl { self with da_vote_outcomes := self.da_vote_outcomes.materialize c }
  else if self.signers[vote_node_id]? = some true then
    Sum.inl { self with da_vote_outcomes := self.da_vote_outcomes.materialize c }
  else
    let acc2 := self.credit vote c vote_node_id
    if VoteMap.stakeAt self.da_vote_outcomes c + vote.token ≥ self.success_threshold then
      Sum.inr (AssembledSignature.DA
        (assemble (getPublicParameter stake_table_entries self.success_threshold)
          acc2.signers acc2.sig_lists))
    else
      Sum.inl acc2

/-- `DAVoteAccumulator::append` (vote.rs lines 361-425): the `let VoteData::DA`
kind filter, then the common body. -/
def DAVoteAccumulator.append (self : DAVoteAccumulator) (vote : Vote)
    (vote_node_id : Nat) (stake_table_entries : List Nat) :
    Sum DAVoteAccumulator AssembledSignature :=
  match vote.data with
  | VoteData.DA c => self.appendDA vote c vote_node_id stake_table_entries
  | _ => Sum.inl self

/-- A fresh DA accumulator for a committee of `n` members with the given
success threshold. -/
def emptyDA (n s : Nat) : DAVoteAccumulator :=
  ⟨[], s, [], List.replicate n false⟩

/-- Drive a DA accumulator over a list of `(vote, voter index)` pairs,
stopping at the first fired certificate (the accumulator is consumed by a
`Right`, per the `Either` ownership protocol). -/
def runDA (acc : DAVoteAccumulator) (votes : List (Vote × Nat))
    (st : List Nat) : Sum DAVoteAccumulator AssembledSignature :=
  match votes with
  | [] => Sum.inl acc
  | p :: rest =>
    match acc.append p.1 p.2 st with
    | Sum.inl a => runDA a rest st
    | Sum.inr cert => Sum.inr cert

/-- `QuorumVoteAccumulator` (vote.rs line 429): three vote maps (total, yes,
no), both thresholds, signature list and signers bitset. -/
structure QuorumVoteAccumulator where
  total_vote_outcomes : VoteMap
  yes_vote_outcomes : VoteMap
  no_vote_outcomes : VoteMap
  success_threshold : Nat
  failure_threshold : Nat
  sig_lists : List Nat
  signers : List Bool
deriving DecidableEq, Repr

/-- The state of the quorum accumulator after the three
`entry(c).or_insert_with(..)` calls (vote.rs lines 479-492) have materialized
empty tallies for `c`: this is the `self` returned on the rejection paths. -/
def QuorumVoteAccumulator.materializeAll (self : QuorumVoteAccumulator)
    (c : Nat) : QuorumVoteAccumulator :=
  { self with
    total_vote_outcomes := self.total_vote_outcomes.materialize c,
    yes_vote_outcomes := self.yes_vote_outcomes.materialize c,
    no_vote_outcomes := self.no_vote_outcomes.materialize c }

/-- The committed mutation of an accepted quorum vote (vote.rs lines 505-531):
set the signer bit, push the signature, credit the total tally, and credit the
yes (resp. no) tally according to the vote's tag.  The map that is not
credited still carries the materialized empty tally for `c`. -/
def QuorumVoteAccumulator.credit (self : QuorumVoteAccumulator) (vote : Vote)
    (c : Nat) (isYes : Bool) (vote_node_id : Nat) : QuorumVoteAccumulator :=
  { self with
    total_vote_outcomes :=
      alistInsert self.total_vote_outcomes c
        (VoteMap.stakeAt self.total_vote_outcomes c + vote.token,
         alistInsert (VoteMap.votersAt self.total_vote_outcomes c) vote.key
           (vote.sig, vote.data, vote.token)),
    yes_vote_outcomes :=
      if isYes then
        alistInsert self.yes_vote_outcomes c
          (VoteMap.stakeAt self.yes_vote_outcomes c + vote.token,
           alistInsert (VoteMap.votersAt self.yes_vote_outcomes c) vote.key
             (vote.sig, vote.data, vote.token))
      else self.yes_vote_outcomes.materialize c,
    no_vote_outcomes :=
      if isYes then self.no_vote_outcomes.materialize c
      else
        alistInsert self.no_vote_outcomes c
          (VoteMap.stakeAt self.no_vote_outcomes c + vote.token,
           alistInsert (VoteMap.votersAt self.no_vote_outcomes c) vote.key
             (vote.sig, vote.data, vote.token)),
    signers := self.signers.set vote_node_id true,
    sig_lists := self.sig_lists ++ [vote.sig] }

/-- Body of `QuorumVoteAccumulator::append` after the
`let (VoteData::Yes(c) | VoteData::No(c))` kind filter (vote.rs lines
459-556); `isYes` records which of the two tags matched (the source
re-matches `vote.get_data()`, which returns the same value).  Duplicate
check is on the total map's inner map only; the threshold section is the
source's lines 533-554. -/
def QuorumVoteAccumulator.appendYN (self : QuorumVoteAccumulator) (vote : Vote)
    (c : Nat) (isYes : Bool) (vote_node_id : Nat) (stake_table_entries : List Nat) :
    Sum QuorumVoteAccumulator AssembledSignature :=
  if (alistLookup (VoteMap.votersAt self.total_vote_outcomes c) vote.key).isSome then
    Sum.inl (self.materializeAll c)
  else if self.signers[vote_node_id]? = some true then
    Sum.inl (self.materializeAll c)
  else
    let acc2 := self.credit vote c isYes vote_node_id
    let total2 := VoteMap.stakeAt self.total_vote_outcomes c + vote.token
    let yes2 := VoteMap.stakeAt self.yes_vote_outcomes c +
      (if isYes then vote.token else 0)
    let no2 := VoteMap.stakeAt self.no_vote_outcomes c +
      (if isYes then 0 else vote.token)
    if total2 ≥ self.success_threshold then
      let real_qc_sig := assemble
        (getPublicParameter stake_table_entries self.success_threshold)
        acc2.signers acc2.sig_lists
      if yes2 ≥ self.success_threshold then
        Sum.inr (AssembledSignature.Yes real_qc_sig)
      else if no2 ≥ self.failure_threshold then
        Sum.inr (AssembledSignature.No real_qc_sig)
      else
        Sum.inl acc2
    else
      Sum.inl acc2

/-- `QuorumVoteAccumulator::append` (vote.rs lines 459-556). -/
def QuorumVoteAccumulator.append (self : QuorumVoteAccumulator) (vote : Vote)
    (vote_node_id : Nat) (stake_table_entries : List Nat) :
    Sum QuorumVoteAccumulator AssembledSignature :=
  match vote.data with
  | VoteData.Yes c => self.appendYN vote c true vote_node_id stake_table_entries
  | VoteData.No c => self.appendYN vote c false vote_node_id stake_table_entries
  | _ => Sum.inl self

/-- A fresh quorum accumulator for a committee of `n` members. -/
def emptyQuorum (n s f : Nat) : QuorumVoteAccumulator :=
  ⟨[], [], [], s, f, [], List.replicate n false⟩

/-- Drive a quorum accumulator over `(vote, voter index)` pairs, stopping at
the first fired certificate. -/
def runQuorum (acc : QuorumVoteAccumulator) (votes : List (Vote × Nat))
    (st : List Nat) : Sum QuorumVoteAccumulator AssembledSignature :=
  match votes with
  | [] => Sum.inl acc
  | p :: rest =>
    match acc.append p.1 p.2 st with
    | Sum.inl a => runQuorum a rest st
    | Sum.inr cert => Sum.inr cert

/-- Which of the three view-sync phases a vote's tag selected. -/
inductive VSPhase where
  | precommitPhase
  | commitPhase
  | finalizePhase
deriving DecidableEq, Repr

/-- `ViewSyncVoteAccumulator` (vote.rs line 560): three per-phase vote maps,
both thresholds, signature list and signers bitset. -/
structure ViewSyncVoteAccumulator where
  pre_commit_vote_outcomes : VoteMap
  commit_vote_outcomes : VoteMap
  finalize_vote_outcomes : VoteMap
  success_threshold : Nat
  failure_threshold : Nat
  sig_lists : List Nat
  signers : List Bool
deriving DecidableEq, Repr

/-- The committed mutation of an accepted view-sync vote (vote.rs lines
651-677): set the signer bit, push the signature and credit the tally of the
vote's phase; the other two phase maps keep their materialized empty tallies
for `c`. -/
def ViewSyncVoteAccumulator.credit (self : ViewSyncVoteAccumulator)
    (vote : Vote) (c : Nat) (ph : VSPhase) (vote_node_id : Nat) :
    ViewSyncVoteAccumulator :=
  { self with
    pre_commit_vote_outcomes :=
      if ph = VSPhase.precommitPhase then
        alistInsert self.pre_commit_vote_outcomes c
          (VoteMap.stakeAt self.pre_commit_vote_outcomes c + vote.token,
           alistInsert (VoteMap.votersAt self.pre_commit_vote_outcomes c) vote.key
             (vote.sig, vote.data, vote.token))
      else self.pre_commit_vote_outcomes.materialize c,
    commit_vote_outcomes :=
      if ph = VSPhase.commitPhase then
        alistInsert self.commit_vote_outcomes c
          (VoteMap.stakeAt self.commit_vote_outcomes c + vote.token,
           alistInsert (VoteMap.votersAt self.commit_vote_outcomes c) vote.key
             (vote.sig, vote.data, vote.token))
      else self.commit_vote_outcomes.materialize c,
    finalize_vote_outcomes :=
      if ph = VSPhase.finalizePhase then
        alistInsert self.finalize_vote_outcomes c
          (VoteMap.stakeAt self.finalize_vote_outcomes c + vote.token,
           alistInsert (VoteMap.votersAt self.finalize_vote_outcomes c) vote.key
             (vote.sig, vote.data, vote.token))
      else self.finalize_vote_outcomes.materialize c,
    signers := self.signers.set vote_node_id true,
    sig_lists := self.sig_lists ++ [vote.sig] }

/-- Body of `ViewSyncVoteAccumulator::append` after the three-way kind filter
(vote.rs lines 591-730).  The duplicate check runs against all three phase
maps in source order (pre-commit, commit, finalize), each preceded by its
`entry(..).or_insert_with(..)` materialization, so each rejection path
returns `self` with exactly the maps materialized so far.  The threshold
section is the source's lines 679-727; the pre-commit certificate's public
parameter is built with `failure_threshold`, the other two with
`success_threshold`. -/
def ViewSyncVoteAccumulator.appendVS (self : ViewSyncVoteAccumulator)
    (vote : Vote) (c : Nat) (ph : VSPhase) (vote_node_id : Nat)
    (stake_table_entries : List Nat) :
    Sum ViewSyncVoteAccumulator AssembledSignature :=
  if (alistLookup (VoteMap.votersAt self.pre_commit_vote_outcomes c) vote.key).isSome then
    Sum.inl { self with
      pre_commit_vote_outcomes := self.pre_commit_vote_outcomes.materialize c }
  else if (alistLookup (VoteMap.votersAt self.commit_vote_outcomes c) vote.key).isSome then
    Sum.inl { self with
      pre_commit_vote_outcomes := self.pre_commit_vote_outcomes.materialize c,
      commit_vote_outcomes := self.commit_vote_outcomes.materialize c }
  else if (alistLookup (VoteMap.votersAt self.finalize_vote_outcomes c) vote.key).isSome then
    Sum.inl { self with
      pre_commit_vote_outcomes := self.pre_commit_vote_outcomes.materialize c,
      commit_vote_outcomes := self.commit_vote_outcomes.materialize c,
      finalize_vote_outcomes := self.finalize_vote_outcomes.materialize c }
  else if self.signers[vote_node_id]? = some true then
    Sum.inl { self with
      pre_commit_vote_outcomes := self.pre_commit_vote_outcomes.materialize c,
      commit_vote_outcomes := self.commit_vote_outcomes.materialize c,
      finalize_vote_outcomes := self.finalize_vote_outcomes.materialize c }
  else
    let acc2 := self.credit vote c ph vote_node_id
    let pre2 := VoteMap.stakeAt self.pre_commit_vote_outcomes c +
      (if ph = VSPhase.precommitPhase then vote.token else 0)
    let commit2 := VoteMap.stakeAt self.commit_vote_outcomes c +
      (if ph = VSPhase.commitPhase then vote.token else 0)
    let fin2 := VoteMap.stakeAt self.finalize_vote_outcomes c +
      (if ph = VSPhase.finalizePhase then vote.token else 0)
    if pre2 ≥ self.failure_threshold then
      Sum.inr (AssembledSignature.ViewSyncPreCommit
        (assemble (getPublicParameter stake_table_entries self.failure_threshold)
          acc2.signers acc2.sig_lists))
    else if commit2 ≥ self.success_threshold then
      Sum.inr (AssembledSignature.ViewSyncCommit
        (assemble (getPublicParameter stake_table_entries self.success_threshold)
          acc2.signers acc2.sig_lists))
    else if fin2 ≥ self.success_threshold then
      Sum.inr (AssembledSignature.ViewSyncFinalize
        (assemble (getPublicParameter stake_table_entries self.success_threshold)
          acc2.signers acc2.sig_lists))
    else
      Sum.inl acc2

/-- `ViewSyncVoteAccumulator::append` (vote.rs lines 591-730): the three-way
kind filter, then the common body. -/
def ViewSyncVoteAccumulator.append (self : ViewSyncVoteAccumulator)
    (vote : Vote) (vote_node_id : Nat) (stake_table_entries : List Nat) :
    Sum ViewSyncVoteAccumulator AssembledSignature :=
  match vote.data with
  | VoteData.ViewSyncPreCommit c =>
    self.appendVS vote c VSPhase.precommitPhase vote_node_id stake_table_entries
  | VoteData.ViewSyncCommit c =>
    self.appendVS vote c VSPhase.commitPhase vote_node_id stake_table_entries
  | VoteData.ViewSyncFinalize c =>
    self.appendVS vote c VSPhase.finalizePhase vote_node_id stake_table_entries
  | _ => Sum.inl self

/-- A fresh view-sync accumulator for a committee of `n` members. -/
def emptyViewSync (n s f : Nat) : ViewSyncVoteAccumulator :=
  ⟨[], [], [], s, f, [], List.replicate n false⟩

/-- Drive a view-sync accumulator over `(vote, voter index)` pairs, stopping
at the first fired certificate. -/
def runViewSync (acc : ViewSyncVoteAccumulator) (votes : List (Vote × Nat))
    (st : List Nat) : Sum ViewSyncVoteAccumulator AssembledSignature :=
  match votes with
  | [] => Sum.inl acc
  | p :: rest =>
    match acc.append p.1 p.2 st with
    | Sum.inl a => runViewSync a rest st
    | Sum.inr cert => Sum.inr cert

/-- Tag predicate: is this a `VoteData::DA`? -/
def VoteData.isDATag : VoteData → Bool
  | VoteData.DA _ => true
  | _ => false

/-- Tag predicate: is this a `VoteData::Yes`? -/
def VoteData.isYesTag : VoteData → Bool
  | VoteData.Yes _ => true
  | _ => false

/-- Tag predicate: is this a `VoteData::No`? -/
def VoteData.isNoTag : VoteData → Bool
  | VoteData.No _ => true
  | _ => false

/-- Tag predicate: is this a `VoteData::Timeout`? -/
def VoteData.isTimeoutTag : VoteData → Bool
  | VoteData.Timeout _ => true
  | _ => false

/-- Tag predicate: is this a `VoteData::ViewSyncPreCommit`? -/
def VoteData.isVSPreTag : VoteData → Bool
  | VoteData.ViewSyncPreCommit _ => true
  | _ => false

/-- Tag predicate: is this a `VoteData::ViewSyncCommit`? -/
def VoteData.isVSCommitTag : VoteData → Bool
  | VoteData.ViewSyncCommit _ => true
  | _ => false

/-- Tag predicate: is this a `VoteData::ViewSyncFinalize`? -/
def VoteData.isVSFinalizeTag : VoteData → Bool
  | VoteData.ViewSyncFinalize _ => true
  | _ => false

/-- The legacy unified `VoteAccumulator` (vote.rs line 773): seven vote maps,
both thresholds, signature list and signers bitset. -/
structure VoteAccumulator where
  total_vote_outcomes : VoteMap
  da_vote_outcomes : VoteMap
  yes_vote_outcomes : VoteMap
  no_vote_outcomes : VoteMap
  viewsync_precommit_vote_outcomes : VoteMap
  viewsync_commit_vote_outcomes : VoteMap
  viewsync_finalize_vote_outcomes : VoteMap
  success_threshold : Nat
  failure_threshold : Nat
  sig_lists : List Nat
  signers : List Bool
deriving DecidableEq, Repr

/-- The unified accumulator with all seven maps materialized at `commitment`
(vote.rs lines 847-884): the `self` visible after all `entry(..)` calls. -/
def VoteAccumulator.materializeAll (self : VoteAccumulator) (c : Nat) :
    VoteAccumulator :=
  { self with
    total_vote_outcomes := self.total_vote_outcomes.materialize c,
    da_vote_outcomes := self.da_vote_outcomes.materialize c,
    yes_vote_outcomes := self.yes_vote_outcomes.materialize c,
    no_vote_outcomes := self.no_vote_outcomes.materialize c,
    viewsync_precommit_vote_outcomes :=
      self.viewsync_precommit_vote_outcomes.materialize c,
    viewsync_commit_vote_outcomes :=
      self.viewsync_commit_vote_outcomes.materialize c,
    viewsync_finalize_vote_outcomes :=
      self.viewsync_finalize_vote_outcomes.materialize c }

/-- Credit one vote map with a vote, or only materialize the empty tally for
`commitment` when the vote's tag does not select this map. -/
def creditIf (m : VoteMap) (sel : Bool) (c key sig : Nat) (vd : VoteData)
    (token : Nat) : VoteMap :=
  if sel then
    alistInsert m c
      (VoteMap.stakeAt m c + token,
       alistInsert (VoteMap.votersAt m c) key (sig, vd, token))
  else m.materialize c

/-- The committed mutation of an accepted vote in the unified accumulator
(vote.rs lines 895-929): set the signer bit, push the signature, credit the
total tally keyed by the caller-supplied `commitment`, and credit the one
per-tag tally selected by `vote_data`. -/
def VoteAccumulator.credit (self : VoteAccumulator) (c key sig node_id : Nat)
    (vote_data : VoteData) (token : Nat) : VoteAccumulator :=
  { self with
    total_vote_outcomes :=
      alistInsert self.total_vote_outcomes c
        (VoteMap.stakeAt self.total_vote_outcomes c + token,
         alistInsert (VoteMap.votersAt self.total_vote_outcomes c) key
           (sig, vote_data, token)),
    da_vote_outcomes :=
      creditIf self.da_vote_outcomes vote_data.isDATag c key sig vote_data token,
    yes_vote_outcomes :=
      creditIf self.yes_vote_outcomes vote_data.isYesTag c key sig vote_data token,
    no_vote_outcomes :=
      creditIf self.no_vote_outcomes vote_data.isNoTag c key sig vote_data token,
    viewsync_precommit_vote_outcomes :=
      creditIf self.viewsync_precommit_vote_outcomes vote_data.isVSPreTag
        c key sig vote_data token,
    viewsync_commit_vote_outcomes :=
      creditIf self.viewsync_commit_vote_outcomes vote_data.isVSCommitTag
        c key sig vote_data token,
    viewsync_finalize_vote_outcomes :=
      creditIf self.viewsync_finalize_vote_outcomes vote_data.isVSFinalizeTag
        c key sig vote_data token,
    signers := self.signers.set node_id true,
    sig_lists := self.sig_lists ++ [sig] }

/-- `VoteAccumulator::append` for the legacy unified accumulator (vote.rs
lines 823-984).  The argument tuple `(commitment, (key, (sig, entries,
node_id, vote_data, token)))` is flattened; the duplicate-key check is
against the total map only, after its `entry` materialization; the
`unimplemented!()` panic on crediting a `VoteData::Timeout` is `none`.  The
threshold section (lines 931-982) is guarded by
`total ≥ success_threshold` for Yes / No / DA / ViewSyncCommit /
ViewSyncFinalize, and the ViewSyncPreCommit check at `failure_threshold`
runs whether or not that guard held. -/
def VoteAccumulator.append (self : VoteAccumulator) (commitment key sig : Nat)
    (entries : List Nat) (node_id : Nat) (vote_data : VoteData) (token : Nat) :
    Option (Sum VoteAccumulator AssembledSignature) :=
  if (alistLookup (VoteMap.votersAt self.total_vote_outcomes commitment) key).isSome then
    some (Sum.inl { self with
      total_vote_outcomes := self.total_vote_outcomes.materialize commitment })
  else if self.signers[node_id]? = some true then
    some (Sum.inl (self.materializeAll commitment))
  else if vote_data.isTimeoutTag then
    none
  else
    if VoteMap.stakeAt self.total_vote_outcomes commitment + token ≥
        self.success_threshold then
      if VoteMap.stakeAt self.yes_vote_outcomes commitment +
          (if vote_data.isYesTag then token else 0) ≥ self.success_threshold then
        some (Sum.inr (AssembledSignature.Yes
          (assemble (getPublicParameter entries self.success_threshold)
            (self.signers.set node_id true) (self.sig_lists ++ [sig]))))
      else if VoteMap.stakeAt self.no_vote_outcomes commitment +
          (if vote_data.isNoTag then token else 0) ≥ self.failure_threshold then
        some (Sum.inr (AssembledSignature.No
          (assemble (getPublicParameter entries self.success_threshold)
            (self.signers.set node_id true) (self.sig_lists ++ [sig]))))
      else if VoteMap.stakeAt self.da_vote_outcomes commitment +
          (if vote_data.isDATag then token else 0) ≥ self.success_threshold then
        some (Sum.inr (AssembledSignature.DA
          (assemble (getPublicParameter entries self.success_threshold)
            (self.signers.set node_id true) (self.sig_lists ++ [sig]))))
      else if VoteMap.stakeAt self.viewsync_commit_vote_outcomes commitment +
          (if vote_data.isVSCommitTag then token else 0) ≥ self.success_threshold then
        some (Sum.inr (AssembledSignature.ViewSyncCommit
          (assemble (getPublicParameter entries self.success_threshold)
            (self.signers.set node_id true) (self.sig_lists ++ [sig]))))
      else if VoteMap.stakeAt self.viewsync_finalize_vote_outcomes commitment +
          (if vote_data.isVSFinalizeTag then token else 0) ≥ self.success_threshold then
        some (Sum.inr (AssembledSignature.ViewSyncFinalize
          (assemble (getPublicParameter entries self.success_threshold)
            (self.signers.set node_id true) (self.sig_lists ++ [sig]))))
      else if VoteMap.stakeAt self.viewsync_precommit_vote_outcomes commitment +
          (if vote_data.isVSPreTag then token else 0) ≥ self.failure_threshold then
        some (Sum.inr (AssembledSignature.ViewSyncPreCommit
          (assemble (getPublicParameter entries self.failure_threshold)
            (self.signers.set node_id true) (self.sig_lists ++ [sig]))))
      else
        some (Sum.inl (self.credit commitment key sig node_id vote_data token))
    else if VoteMap.stakeAt self.viewsync_precommit_vote_outcomes commitment +
        (if vote_data.isVSPreTag then token else 0) ≥ self.failure_threshold then
      some (Sum.inr (AssembledSignature.ViewSyncPreCommit
        (assemble (getPublicParameter entries self.failure_threshold)
          (self.signers.set node_id true) (self.sig_lists ++ [sig]))))
    else
      some (Sum.inl (self.credit commitment key sig node_id vote_data token))

/-- A fresh unified accumulator for a committee of `n` members. -/
def emptyUnified (n s f : Nat) : VoteAccumulator :=
  ⟨[], [], [], [], [], [], [], s, f, [], List.replicate n false⟩

/-- One input of the unified accumulator's `append`, flattened from the
source's nested tuple. -/
structure UVal where
  commitment : Nat
  key : Nat
  sig : Nat
  node_id : Nat
  vote_data : VoteData
  token : Nat
deriving DecidableEq, Repr

/-- Drive the unified accumulator over a list of inputs, stopping at the
first fired certificate; `none` when an `unimplemented!()` panic is reached. -/
def runUnified (acc : VoteAccumulator) (vals : List UVal) (entries : List Nat) :
    Option (Sum VoteAccumulator AssembledSignature) :=
  match vals with
  | [] => some (Sum.inl acc)
  | v :: rest =>
    match acc.append v.commitment v.key v.sig entries v.node_id v.vote_data v.token with
    | none => none
    | some (Sum.inl a) => runUnified a rest entries
    | some (Sum.inr cert) => some (Sum.inr cert)

/-- One step recorded by the commitment builder of the `commit` crate, at the
granularity of the builder API used by vote.rs. -/
inductive CommitStep where
  | tag (s : String)
  | varSizeField (label : String) (bytes : List Nat)
  | u64field (v : Nat)
deriving DecidableEq, Repr

/-- A commitment of the `commit` crate, modelled as the transcript the
builder hashed (the hash itself is an external primitive and is injective on
transcripts by assumption; equality of transcripts is what the code can
guarantee). -/
abbrev RawCommitment := List CommitStep

/-- `commit::RawCommitmentBuilder` state. -/
structure RawCommitmentBuilder where
  transcript : List CommitStep
deriving DecidableEq, Repr

/-- `RawCommitmentBuilder::new(tag)`. -/
def RawCommitmentBuilder.new (tag : String) : RawCommitmentBuilder :=
  ⟨[CommitStep.tag tag]⟩

/-- `RawCommitmentBuilder::var_size_field(label, bytes)`. -/
def RawCommitmentBuilder.var_size_field (b : RawCommitmentBuilder)
    (label : String) (bytes : List Nat) : RawCommitmentBuilder :=
  ⟨b.transcript ++ [CommitStep.varSizeField label bytes]⟩

/-- `RawCommitmentBuilder::u64(v)`. -/
def RawCommitmentBuilder.u64 (b : RawCommitmentBuilder) (v : Nat) :
    RawCommitmentBuilder :=
  ⟨b.transcript ++ [CommitStep.u64field v]⟩

/-- `RawCommitmentBuilder::finalize()`. -/
def RawCommitmentBuilder.finalize (b : RawCommitmentBuilder) : RawCommitment :=
  b.transcript

/-- The domain-separation tag of `ViewSyncData::commit` (vote.rs line 128). -/
def quorumCertificateCommitmentTag : String := "Quorum Certificate Commitment"

/-- The label of the relay-key field of `ViewSyncData::commit` (vote.rs
line 131). -/
def relayPublicKeyLabel : String := "Relay public key"

/-- `ViewSyncData` (vote.rs line 119): the encoded relay public key bytes and
the round number. -/
structure ViewSyncData where
  relay : List Nat
  round : Nat
deriving DecidableEq, Repr

/-- `ViewSyncData::commit` (vote.rs lines 126-135). -/
def ViewSyncData.commit (self : ViewSyncData) : RawCommitment :=
  let builder := RawCommitmentBuilder.new quorumCertificateCommitmentTag
  ((builder.var_size_field relayPublicKeyLabel self.relay).u64 self.round).finalize

/-- Spec-side reading of section 4.3's threshold evaluation for the quorum
accumulator, stated over the post-credit tallies: emit `Yes` iff
`total ≥ success ∧ yes ≥ success`, else emit `No` iff
`total ≥ success ∧ no ≥ failure`, else keep accumulating. -/
def quorumOutcomeSpec (s f total2 yes2 no2 : Nat) (q : AssembledSig)
    (fallback : QuorumVoteAccumulator) :
    Sum QuorumVoteAccumulator AssembledSignature :=
  if total2 ≥ s ∧ yes2 ≥ s then Sum.inr (AssembledSignature.Yes q)
  else if total2 ≥ s ∧ no2 ≥ f then Sum.inr (AssembledSignature.No q)
  else Sum.inl fallback

/-- Spec-side reading of section 4.4's threshold evaluation for the view-sync
accumulator, stated over the post-credit tallies: pre-commit at
`failure_threshold` first (with the `failure_threshold` public parameter),
then commit and finalize at `success_threshold`. -/
def viewSyncOutcomeSpec (s f pre2 commit2 fin2 : Nat) (st : List Nat)
    (signers : List Bool) (sigs : List Nat)
    (fallback : ViewSyncVoteAccumulator) :
    Sum ViewSyncVoteAccumulator AssembledSignature :=
  if pre2 ≥ f then
    Sum.inr (AssembledSignature.ViewSyncPreCommit
      (assemble (getPublicParameter st f) signers sigs))
  else if commit2 ≥ s then
    Sum.inr (AssembledSignature.ViewSyncCommit
      (assemble (getPublicParameter st s) signers sigs))
  else if fin2 ≥ s then
    Sum.inr (AssembledSignature.ViewSyncFinalize
      (assemble (getPublicParameter st s) signers sigs))
  else Sum.inl fallback

/-- Spec-side reading of section 4.5's threshold order for the unified
accumulator: Yes, No, DA, ViewSyncCommit, ViewSyncFinalize each gated on
`total ≥ success_threshold`, then ViewSyncPreCommit gated only on
`precommit ≥ failure_threshold`. -/
def unifiedOutcomeSpec (s f total2 yes2 no2 da2 vsPre2 vsCommit2 vsFin2 : Nat)
    (entries : List Nat) (signers : List Bool) (sigs : List Nat)
    (fallback : VoteAccumulator) :
    Option (Sum VoteAccumulator AssembledSignature) :=
  let qcSig := assemble (getPublicParameter entries s) signers sigs
  let preSig := assemble (getPublicParameter entries f) signers sigs
  if total2 ≥ s ∧ yes2 ≥ s then some (Sum.inr (AssembledSignature.Yes qcSig))
  else if total2 ≥ s ∧ no2 ≥ f then some (Sum.inr (AssembledSignature.No qcSig))
  else if total2 ≥ s ∧ da2 ≥ s then some (Sum.inr (AssembledSignature.DA qcSig))
  else if total2 ≥ s ∧ vsCommit2 ≥ s then
    some (Sum.inr (AssembledSignature.ViewSyncCommit qcSig))
  else if total2 ≥ s ∧ vsFin2 ≥ s then
    some (Sum.inr (AssembledSignature.ViewSyncFinalize qcSig))
  else if vsPre2 ≥ f then
    some (Sum.inr (AssembledSignature.ViewSyncPreCommit preSig))
  else some (Sum.inl fallback)

/-- Well-formedness of the quorum accumulator's maps: every commitment keyed
in the total map is also keyed in the yes and no maps.  Every reachable
accumulator satisfies this, because the three `entry(..).or_insert_with(..)`
calls materialize the three tallies together. -/
def QuorumVoteAccumulator.wf (self : QuorumVoteAccumulator) : Prop :=
  ∀ p ∈ self.total_vote_outcomes,
    (alistLookup self.yes_vote_outcomes p.1).isSome = true ∧
    (alistLookup self.no_vote_outcomes p.1).isSome = true

/-- Well-formedness of the view-sync accumulator's maps, matching the source
order of the `entry` calls: a commitment keyed in the commit map is keyed in
the pre-commit map, and one keyed in the finalize map is keyed in both
earlier maps. -/
def ViewSyncVoteAccumulator.wf (self : ViewSyncVoteAccumulator) : Prop :=
  (∀ p ∈ self.commit_vote_outcomes,
    (alistLookup self.pre_commit_vote_outcomes p.1).isSome = true) ∧
  (∀ p ∈ self.finalize_vote_outcomes,
    (alistLookup self.pre_commit_vote_outcomes p.1).isSome = true ∧
    (alistLookup self.commit_vote_outcomes p.1).isSome = true)

/-- Invariant I2 on a DA run result: on `Left`, popcount of `signers` equals
the length of `sig_lists`. -/
def bijDA : Sum DAVoteAccumulator AssembledSignature → Prop
  | Sum.inl a => countTrue a.signers = a.sig_lists.length
  | Sum.inr _ => True

/-- Invariant I2 on a quorum run result. -/
def bijQuorum : Sum QuorumVoteAccumulator AssembledSignature → Prop
  | Sum.inl a => countTrue a.signers = a.sig_lists.length
  | Sum.inr _ => True

/-- Invariant I2 on a view-sync run result. -/
def bijViewSync : Sum ViewSyncVoteAccumulator AssembledSignature → Prop
  | Sum.inl a => countTrue a.signers = a.sig_lists.length
  | Sum.inr _ => True

/-- Invariant I2 on a unified run result (`none` is the source's panic). -/
def bijUnified : Option (Sum VoteAccumulator AssembledSignature) → Prop
  | some (Sum.inl a) => countTrue a.signers = a.sig_lists.length
  | _ => True

/-- Total stake weight the DA votes of a list contribute to commitment `c`. -/
def daVoteWeight (votes : List (Vote × Nat)) (c : Nat) : Nat :=
  (votes.map (fun p => if p.1.data = VoteData.DA c then p.1.token else 0)).sum

/-- The votes of the list are fresh for the accumulator: each is a DA vote
whose encoded key appears in no inner map and whose committee position's
signer bit is unset (in particular in range). -/
def daFresh (acc : DAVoteAccumulator) (votes : List (Vote × Nat)) : Prop :=
  ∀ p ∈ votes,
    (∃ c, p.1.data = VoteData.DA c) ∧
    (∀ c, alistLookup (VoteMap.votersAt acc.da_vote_outcomes c) p.1.key = none) ∧
    acc.signers[p.2]? = some false

/-- The votes of the list are pairwise non-duplicate: distinct encoded keys
and distinct committee positions. -/
def daDistinct (votes : List (Vote × Nat)) : Prop :=
  (votes.map (fun p => p.1.key)).Nodup ∧ (votes.map Prod.snd).Nodup

/-- The order-free firing condition of a DA run: some commitment's initial
tally plus the stake of the list's votes for it reaches the success
threshold, and the list actually votes on that commitment. -/
def daFires (acc : DAVoteAccumulator) (votes : List (Vote × Nat)) : Prop :=
  ∃ c, (∃ p ∈ votes, p.1.data = VoteData.DA c) ∧
    VoteMap.stakeAt acc.da_vote_outcomes c + daVoteWeight votes c ≥
      acc.success_threshold

/-- Stake-table entries used by the concrete four-voter scenarios. -/
def stDemo : List Nat := [10, 11, 12, 13]

/-- Stake-table entries used by the concrete five-voter scenarios. -/
def stDemo5 : List Nat := [10, 11, 12, 13, 14]

/-- Scenario vote: voter 0 votes `Yes` on commitment 0 with stake 1. -/
def qYes0 : Vote := ⟨0, 100, 1, VoteData.Yes 0⟩

/-- Scenario vote: voter 1 votes `No` on commitment 0 with stake 1. -/
def qNo1 : Vote := ⟨1, 101, 1, VoteData.No 0⟩

/-- Scenario vote: voter 2 votes `No` on commitment 0 with stake 1. -/
def qNo2 : Vote := ⟨2, 102, 1, VoteData.No 0⟩

/-- Scenario vote: voter key 1 votes `Yes` on the fresh commitment 1. -/
def qFresh : Vote := ⟨1, 101, 1, VoteData.Yes 1⟩

/-- The quorum accumulator (4 voters, success 3, failure 2) after accepting
`qYes0` from committee position 0. -/
def quorumDemo1 : QuorumVoteAccumulator :=
  ⟨[(0, (1, [(0, (100, VoteData.Yes 0, 1))]))],
   [(0, (1, [(0, (100, VoteData.Yes 0, 1))]))],
   [(0, (0, []))],
   3, 2, [100], [true, false, false, false]⟩

/-- `quorumDemo1` after the rejected append of `qFresh` at the already-set
committee position 0: the maps have gained empty tallies for commitment 1. -/
def quorumDemo1r : QuorumVoteAccumulator :=
  ⟨[(0, (1, [(0, (100, VoteData.Yes 0, 1))])), (1, (0, []))],
   [(0, (1, [(0, (100, VoteData.Yes 0, 1))])), (1, (0, []))],
   [(0, (0, [])), (1, (0, []))],
   3, 2, [100], [true, false, false, false]⟩

/-- The quorum accumulator (4 voters, success 3, failure 2) after accepting
`qYes0` from position 0 and `qNo1` from position 1. -/
def quorumDemo2 : QuorumVoteAccumulator :=
  ⟨[(0, (2, [(0, (100, VoteData.Yes 0, 1)), (1, (101, VoteData.No 0, 1))]))],
   [(0, (1, [(0, (100, VoteData.Yes 0, 1))]))],
   [(0, (1, [(1, (101, VoteData.No 0, 1))]))],
   3, 2, [100, 101], [true, true, false, false]⟩

/-- A vote of the five-voter order-dependence scenario: voter `k` with key
`k`, signature `100 + k`, stake 1. -/
def cxV (k : Nat) (d : VoteData) : Vote := ⟨k, 100 + k, 1, d⟩

/-- Delivery order A of the five-vote set {Yes 0, Yes 1, Yes 2, No 3, No 4}
over one commitment: the three Yes votes first. -/
def qcVotesA : List (Vote × Nat) :=
  [(cxV 0 (VoteData.Yes 0), 0), (cxV 1 (VoteData.Yes 0), 1),
   (cxV 2 (VoteData.Yes 0), 2), (cxV 3 (VoteData.No 0), 3),
   (cxV 4 (VoteData.No 0), 4)]

/-- Delivery order B of the same five-vote set: the two No votes first. -/
def qcVotesB : List (Vote × Nat) :=
  [(cxV 3 (VoteData.No 0), 3), (cxV 4 (VoteData.No 0), 4),
   (cxV 0 (VoteData.Yes 0), 0), (cxV 1 (VoteData.Yes 0), 1),
   (cxV 2 (VoteData.Yes 0), 2)]

/-- Scenario vote: voter 0 votes `ViewSyncPreCommit` on commitment 0. -/
def vsPre0 : Vote := ⟨0, 100, 1, VoteData.ViewSyncPreCommit 0⟩

/-- Scenario vote: voter 1 votes `ViewSyncPreCommit` on commitment 0. -/
def vsPre1 : Vote := ⟨1, 101, 1, VoteData.ViewSyncPreCommit 0⟩

/-- Scenario vote: voter 0 votes `ViewSyncCommit` on commitment 0 (after the
same voter's pre-commit vote was accepted). -/
def vsCommit0 : Vote := ⟨0, 100, 1, VoteData.ViewSyncCommit 0⟩

/-- The view-sync accumulator (4 voters, success 3, failure 2) after
accepting `vsPre0` from committee position 0. -/
def viewSyncDemo1 : ViewSyncVoteAccumulator :=
  ⟨[(0, (1, [(0, (100, VoteData.ViewSyncPreCommit 0, 1))]))],
   [(0, (0, []))],
   [(0, (0, []))],
   3, 2, [100], [true, false, false, false]⟩

/-- DA votes of the bijection-invariant witness scenario. -/
def daDemoVotes : List (Vote × Nat) :=
  [(⟨0, 100, 1, VoteData.DA 0⟩, 0), (⟨1, 101, 1, VoteData.DA 0⟩, 1)]

/-- One permutation of a two-vote DA set (threshold 2, both votes needed). -/
def daPermVotes1 : List (Vote × Nat) :=
  [(⟨0, 100, 1, VoteData.DA 0⟩, 0), (⟨1, 101, 1, VoteData.DA 0⟩, 1)]

/-- The other permutation of the same two-vote DA set. -/
def daPermVotes2 : List (Vote × Nat) :=
  [(⟨1, 101, 1, VoteData.DA 0⟩, 1), (⟨0, 100, 1, VoteData.DA 0⟩, 0)]

/-- Input of the unified-accumulator witness scenario: voter 0 votes `Yes`
on commitment 0 with stake 1. -/
def uDemoVal : UVal := ⟨0, 0, 100, 0, VoteData.Yes 0, 1⟩

/-- The two possible effects of one append on the signers bitset and the
signature list: a rejection leaves both unchanged; an acceptance sets one
previously-unset committee position and pushes that vote's decoded share. -/
def stepShape (sOld sNew : List Bool) (lOld lNew : List Nat)
    (id sg : Nat) : Prop :=
  (sNew = sOld ∧ lNew = lOld) ∨
  (sOld[id]? = some false ∧ sNew = sOld.set id true ∧ lNew = lOld ++ [sg])

/-- The signers bitset and the signature list are exactly explained by a
ledger `sel` of committed `(committee position, decoded share)` pairs:
`sig_lists` is precisely the pushed shares in order, a position's bit is set
exactly when that member contributed a share, and no position contributed
twice. -/
def committedShares (signers : List Bool) (sigs : List Nat)
    (sel : List (Nat × Nat)) : Prop :=
  sigs = sel.map Prod.snd ∧
  (∀ i, signers[i]? = some true ↔ ∃ p ∈ sel, p.1 = i) ∧
  (sel.map Prod.fst).Nodup

/-- The DA accumulator after the two-vote bijection-witness run. -/
def daDemoAcc : DAVoteAccumulator :=
  ⟨[(0, (2, [(0, (100, VoteData.DA 0, 1)), (1, (101, VoteData.DA 0, 1))]))],
   3, [100, 101], [true, true, false, false]⟩

/-- Lookup after insert: the inserted key reads back the inserted value,
other keys are unaffected. -/
theorem alistLookup_insert {α : Type} (m : List (Nat × α)) (k : Nat) (v : α)
    (k' : Nat) :
    alistLookup (alistInsert m k v) k' =
      if k = k' then some v else alistLookup m k' := by
  induction m with
  | nil => simp [alistInsert, alistLookup]
  | cons p rest ih =>
    obtain ⟨k2, v2⟩ := p
    by_cases h : k2 = k
    · subst h
      by_cases h2 : k2 = k'
      · subst h2; simp [alistInsert, alistLookup]
      · simp [alistInsert, alistLookup, h2]
    · by_cases h2 : k2 = k'
      · subst h2
        have hne : k ≠ k2 := fun hh => h hh.symm
        simp [alistInsert, alistLookup, h, hne]
      · simp [alistInsert, alistLookup, h, h2, ih]

/-- Accumulated stake after inserting a tally. -/
theorem stakeAt_insert (m : VoteMap) (c : Nat) (x : Nat × InnerMap) (c' : Nat) :
    VoteMap.stakeAt (alistInsert m c x) c' =
      if c = c' then x.1 else VoteMap.stakeAt m c' := by
  unfold VoteMap.stakeAt
  rw [alistLookup_insert]
  by_cases h : c = c' <;> simp [h]

/-- Inner voter map after inserting a tally. -/
theorem votersAt_insert (m : VoteMap) (c : Nat) (x : Nat × InnerMap) (c' : Nat) :
    VoteMap.votersAt (alistInsert m c x) c' =
      if c = c' then x.2 else VoteMap.votersAt m c' := by
  unfold VoteMap.votersAt
  rw [alistLookup_insert]
  by_cases h : c = c' <;> simp [h]

/-- Materializing an empty tally does not change any accumulated stake. -/
theorem stakeAt_materialize (m : VoteMap) (c c' : Nat) :
    VoteMap.stakeAt (m.materialize c) c' = VoteMap.stakeAt m c' := by
  unfold VoteMap.materialize
  cases hm : alistLookup m c with
  | some v => rfl
  | none =>
    rw [stakeAt_insert]
    by_cases h : c = c'
    · subst h; simp [VoteMap.stakeAt, hm]
    · simp [h]

/-- Materializing an empty tally does not change any inner voter map. -/
theorem votersAt_materialize (m : VoteMap) (c c' : Nat) :
    VoteMap.votersAt (m.materialize c) c' = VoteMap.votersAt m c' := by
  unfold VoteMap.materialize
  cases hm : alistLookup m c with
  | some v => rfl
  | none =>
    rw [votersAt_insert]
    by_cases h : c = c'
    · subst h; simp [VoteMap.votersAt, hm]
    · simp [h]

/-- A key present in the inner voter map of `c` forces the outer map to
contain `c`. -/
theorem outer_isSome_of_votersAt (m : VoteMap) (c k : Nat)
    (h : (alistLookup (VoteMap.votersAt m c) k).isSome = true) :
    (alistLookup m c).isSome = true := by
  unfold VoteMap.votersAt at h
  cases hm : alistLookup m c with
  | some v => rfl
  | none => rw [hm] at h; simp [alistLookup] at h

/-- Materializing a commitment already present is the identity. -/
theorem materialize_of_isSome (m : VoteMap) (c : Nat)
    (h : (alistLookup m c).isSome = true) : m.materialize c = m := by
  unfold VoteMap.materialize
  cases hm : alistLookup m c with
  | some v => rfl
  | none => rw [hm] at h; simp at h

/-- Claim C10 (confirmed): the commitment of a `ViewSyncData` value is built
from the domain-separation tag "Quorum Certificate Commitment", a
variable-size field labeled "Relay public key" holding the encoded relay key
bytes, and a u64 field holding the round number, finalized in that order;
consequently equal relay bytes and round always yield equal commitments. -/
theorem viewSyncData_commit_format :
    (∀ d : ViewSyncData, d.commit =
      [CommitStep.tag quorumCertificateCommitmentTag,
       CommitStep.varSizeField relayPublicKeyLabel d.relay,
       CommitStep.u64field d.round]) ∧
    (∀ a b : ViewSyncData, a.relay = b.relay → a.round = b.round →
      a.commit = b.commit) := by
  constructor
  · intro d; rfl
  · intro a b h1 h2
    cases a; cases b
    simp only at h1 h2
    rw [h1, h2]

/-- Witness for C10 at concrete inputs. -/
theorem viewSyncData_commit_format_witness :
    (⟨[3, 4], 9⟩ : ViewSyncData).relay = (⟨[3, 4], 9⟩ : ViewSyncData).relay ∧
    (⟨[3, 4], 9⟩ : ViewSyncData).commit = (⟨[3, 4], 9⟩ : ViewSyncData).commit :=
  ⟨rfl, viewSyncData_commit_format.2 ⟨[3, 4], 9⟩ ⟨[3, 4], 9⟩ rfl rfl⟩

/-- Claim C2 (confirmed): after crediting an accepted Yes/No vote for
commitment `c`, `QuorumVoteAccumulator::append` emits `Yes` iff the
post-credit total and yes stakes both reach `success_threshold`; otherwise
emits `No` iff the post-credit total reaches `success_threshold` and the
post-credit no stake reaches `failure_threshold`; otherwise returns `Left`
with the credited accumulator. -/
theorem quorum_append_threshold (acc : QuorumVoteAccumulator) (v : Vote)
    (c : Nat) (isYes : Bool) (id : Nat) (st : List Nat)
    (hdata : v.data = (if isYes then VoteData.Yes c else VoteData.No c))
    (hdup : alistLookup (VoteMap.votersAt acc.total_vote_outcomes c) v.key = none)
    (hsig : acc.signers[id]? ≠ some true) :
    acc.append v id st =
      quorumOutcomeSpec acc.success_threshold acc.failure_threshold
        (VoteMap.stakeAt acc.total_vote_outcomes c + v.token)
        (VoteMap.stakeAt acc.yes_vote_outcomes c + (if isYes then v.token else 0))
        (VoteMap.stakeAt acc.no_vote_outcomes c + (if isYes then 0 else v.token))
        (assemble (getPublicParameter st acc.success_threshold)
          (acc.signers.set id true) (acc.sig_lists ++ [v.sig]))
        (acc.credit v c isYes id) := by
  cases isYes <;>
    simp only [Bool.false_eq_true, if_false, if_true] at hdata <;>
    simp only [QuorumVoteAccumulator.append, hdata,
      QuorumVoteAccumulator.appendYN, hdup, Option.isSome_none,
      Bool.false_eq_true, if_false, if_neg hsig, quorumOutcomeSpec] <;>
    split_ifs <;> first | rfl | omega

/-- Witness for C2: the spec's Quorum-No scenario.  With four stake-1 voters,
success 3, failure 2, after Yes from voter 0 and No from voter 1, the third
append (No from voter 2) emits the `No` certificate. -/
theorem quorum_append_threshold_witness :
    qNo2.data = (if false then VoteData.Yes 0 else VoteData.No 0) ∧
    runQuorum (emptyQuorum 4 3 2) [(qYes0, 0), (qNo1, 1)] stDemo =
      Sum.inl quorumDemo2 ∧
    QuorumVoteAccumulator.append quorumDemo2 qNo2 2 stDemo =
      Sum.inr (AssembledSignature.No (assemble (getPublicParameter stDemo 3)
        [true, true, true, false] [100, 101, 102])) :=
  ⟨rfl, by decide,
   (quorum_append_threshold quorumDemo2 qNo2 0 false 2 stDemo rfl (by decide)
     (by decide)).trans (by decide)⟩

/-- Claim C3 (confirmed): after crediting an accepted view-sync vote for
commitment `c`, `ViewSyncVoteAccumulator::append` evaluates, in priority
order, pre-commit stake against `failure_threshold` (emitting
`ViewSyncPreCommit` with the `failure_threshold` public parameter), then
commit stake against `success_threshold`, then finalize stake against
`success_threshold`, else returns `Left` with the credited accumulator. -/
theorem viewsync_append_threshold (acc : ViewSyncVoteAccumulator) (v : Vote)
    (c : Nat) (ph : VSPhase) (id : Nat) (st : List Nat)
    (hdata : v.data = (match ph with
      | VSPhase.precommitPhase => VoteData.ViewSyncPreCommit c
      | VSPhase.commitPhase => VoteData.ViewSyncCommit c
      | VSPhase.finalizePhase => VoteData.ViewSyncFinalize c))
    (hdup1 : alistLookup (VoteMap.votersAt acc.pre_commit_vote_outcomes c) v.key = none)
    (hdup2 : alistLookup (VoteMap.votersAt acc.commit_vote_outcomes c) v.key = none)
    (hdup3 : alistLookup (VoteMap.votersAt acc.finalize_vote_outcomes c) v.key = none)
    (hsig : acc.signers[id]? ≠ some true) :
    acc.append v id st =
      viewSyncOutcomeSpec acc.success_threshold acc.failure_threshold
        (VoteMap.stakeAt acc.pre_commit_vote_outcomes c +
          (if ph = VSPhase.precommitPhase then v.token else 0))
        (VoteMap.stakeAt acc.commit_vote_outcomes c +
          (if ph = VSPhase.commitPhase then v.token else 0))
        (VoteMap.stakeAt acc.finalize_vote_outcomes c +
          (if ph = VSPhase.finalizePhase then v.token else 0))
        st (acc.signers.set id true) (acc.sig_lists ++ [v.sig])
        (acc.credit v c ph id) := by
  cases ph <;> simp only at hdata <;>
    simp only [ViewSyncVoteAccumulator.append, hdata,
      ViewSyncVoteAccumulator.appendVS, hdup1, hdup2, hdup3, Option.isSome_none,
      Bool.false_eq_true, if_false, if_neg hsig, viewSyncOutcomeSpec] <;>
    split_ifs <;> rfl

/-- Witness for C3: the spec's ViewSync PreCommit scenario.  With stake-1
voters and failure threshold 2, the second `ViewSyncPreCommit` vote fires
the `ViewSyncPreCommit` certificate built with the failure threshold. -/
theorem viewsync_append_threshold_witness :
    vsPre1.data = VoteData.ViewSyncPreCommit 0 ∧
    runViewSync (emptyViewSync 4 3 2) [(vsPre0, 0)] stDemo =
      Sum.inl viewSyncDemo1 ∧
    ViewSyncVoteAccumulator.append viewSyncDemo1 vsPre1 1 stDemo =
      Sum.inr (AssembledSignature.ViewSyncPreCommit
        (assemble (getPublicParameter stDemo 2)
          [true, true, false, false] [100, 101])) :=
  ⟨rfl, by decide,
   (viewsync_append_threshold viewSyncDemo1 vsPre1 0 VSPhase.precommitPhase 1
     stDemo rfl (by decide) (by decide) (by decide) (by decide)).trans (by decide)⟩

/-- Claim C9 (confirmed): whenever the quorum accumulator emits a `No`
certificate, the aggregated signature's public parameters were built with
`success_threshold` (as for `Yes`); `failure_threshold` is only the firing
gate of the no tally. -/
theorem quorum_no_pp_success_threshold (acc : QuorumVoteAccumulator) (v : Vote)
    (id : Nat) (st : List Nat) (q : AssembledSig)
    (h : acc.append v id st = Sum.inr (AssembledSignature.No q)) :
    q.pp = getPublicParameter st acc.success_threshold := by
  cases hv : v.data <;>
    simp only [QuorumVoteAccumulator.append, hv,
      QuorumVoteAccumulator.appendYN] at h <;>
    first
    | exact Sum.noConfusion h
    | (split_ifs at h <;> simp_all [assemble] <;> exact h ▸ rfl)

/-- Witness for C9 at the concrete Quorum-No scenario. -/
theorem quorum_no_pp_success_threshold_witness :
    (assemble (getPublicParameter stDemo 3) [true, true, true, false]
      [100, 101, 102]).pp = getPublicParameter stDemo 3 :=
  quorum_no_pp_success_threshold quorumDemo2 qNo2 2 stDemo
    (assemble (getPublicParameter stDemo 3) [true, true, true, false]
      [100, 101, 102]) (by decide)

/-- The unified accumulator's nested threshold chain, over abstract tallies
and signature data, agrees with the flat priority chain of
`unifiedOutcomeSpec`. -/
theorem unified_chain_eq (s f total2 yes2 no2 da2 vsPre2 vsCommit2 vsFin2 : Nat)
    (entries : List Nat) (sgl : List Bool) (sigs : List Nat)
    (fb : VoteAccumulator) :
    (if total2 ≥ s then
      if yes2 ≥ s then
        some (Sum.inr (AssembledSignature.Yes
          (assemble (getPublicParameter entries s) sgl sigs)))
      else if no2 ≥ f then
        some (Sum.inr (AssembledSignature.No
          (assemble (getPublicParameter entries s) sgl sigs)))
      else if da2 ≥ s then
        some (Sum.inr (AssembledSignature.DA
          (assemble (getPublicParameter entries s) sgl sigs)))
      else if vsCommit2 ≥ s then
        some (Sum.inr (AssembledSignature.ViewSyncCommit
          (assemble (getPublicParameter entries s) sgl sigs)))
      else if vsFin2 ≥ s then
        some (Sum.inr (AssembledSignature.ViewSyncFinalize
          (assemble (getPublicParameter entries s) sgl sigs)))
      else if vsPre2 ≥ f then
        some (Sum.inr (AssembledSignature.ViewSyncPreCommit
          (assemble (getPublicParameter entries f) sgl sigs)))
      else some (Sum.inl fb)
    else if vsPre2 ≥ f then
      some (Sum.inr (AssembledSignature.ViewSyncPreCommit
        (assemble (getPublicParameter entries f) sgl sigs)))
    else some (Sum.inl fb)) =
    unifiedOutcomeSpec s f total2 yes2 no2 da2 vsPre2 vsCommit2 vsFin2
      entries sgl sigs fb := by
  unfold unifiedOutcomeSpec
  by_cases h1 : total2 ≥ s
  · by_cases h2 : yes2 ≥ s
    · simp [h1, h2]
    · by_cases h3 : no2 ≥ f
      · simp [h1, h2, h3]
      · by_cases h4 : da2 ≥ s
        · simp [h1, h2, h3, h4]
        · by_cases h5 : vsCommit2 ≥ s
          · simp [h1, h2, h3, h4, h5]
          · by_cases h6 : vsFin2 ≥ s
            · simp [h1, h2, h3, h4, h5, h6]
            · by_cases h7 : vsPre2 ≥ f
              · simp [h1, h2, h3, h4, h5, h6, h7]
              · simp [h1, h2, h3, h4, h5, h6, h7]
  · by_cases h7 : vsPre2 ≥ f
    · simp [h1, h7]
    · simp [h1, h7]

set_option maxHeartbeats 2000000 in
/-- Claim C8 (confirmed): after crediting an accepted vote, the legacy
unified accumulator evaluates outcomes in the order Yes, No, DA,
ViewSyncCommit, ViewSyncFinalize — each additionally gated on the total
stake reaching `success_threshold` — and then ViewSyncPreCommit whenever the
pre-commit stake reaches `failure_threshold` even if the total gate failed;
the first satisfied outcome fires, else it returns `Left`. -/
theorem unified_append_threshold (acc : VoteAccumulator) (c key sg : Nat)
    (entries : List Nat) (id : Nat) (vd : VoteData) (tok : Nat)
    (hdup : alistLookup (VoteMap.votersAt acc.total_vote_outcomes c) key = none)
    (hsig : acc.signers[id]? ≠ some true)
    (htimeout : vd.isTimeoutTag = false) :
    acc.append c key sg entries id vd tok =
      unifiedOutcomeSpec acc.success_threshold acc.failure_threshold
        (VoteMap.stakeAt acc.total_vote_outcomes c + tok)
        (VoteMap.stakeAt acc.yes_vote_outcomes c +
          (if vd.isYesTag then tok else 0))
        (VoteMap.stakeAt acc.no_vote_outcomes c +
          (if vd.isNoTag then tok else 0))
        (VoteMap.stakeAt acc.da_vote_outcomes c +
          (if vd.isDATag then tok else 0))
        (VoteMap.stakeAt acc.viewsync_precommit_vote_outcomes c +
          (if vd.isVSPreTag then tok else 0))
        (VoteMap.stakeAt acc.viewsync_commit_vote_outcomes c +
          (if vd.isVSCommitTag then tok else 0))
        (VoteMap.stakeAt acc.viewsync_finalize_vote_outcomes c +
          (if vd.isVSFinalizeTag then tok else 0))
        entries (acc.signers.set id true) (acc.sig_lists ++ [sg])
        (acc.credit c key sg id vd tok) := by
  simp only [VoteAccumulator.append, hdup, Option.isSome_none,
    Bool.false_eq_true, if_false, if_neg hsig, htimeout]
  exact unified_chain_eq _ _ _ _ _ _ _ _ _ _ _ _ _

/-- Witness for C8: a first `Yes` vote on the fresh unified accumulator is
accepted and, with total 1 below the success threshold 3, returns `Left`. -/
theorem unified_append_threshold_witness :
    alistLookup (VoteMap.votersAt (emptyUnified 4 3 2).total_vote_outcomes 0) 0 = none ∧
    VoteAccumulator.append (emptyUnified 4 3 2) 0 0 100 stDemo 0 (VoteData.Yes 0) 1 =
      unifiedOutcomeSpec 3 2 1 1 0 0 0 0 0 stDemo [true, false, false, false]
        [100] ((emptyUnified 4 3 2).credit 0 0 100 0 (VoteData.Yes 0) 1) :=
  ⟨by decide,
   unified_append_threshold (emptyUnified 4 3 2) 0 0 100 stDemo 0
     (VoteData.Yes 0) 1 (by decide) (by decide) (by decide)⟩

/-- Counterexample to C4 as stated: a reachable quorum accumulator (after one
accepted Yes vote from position 0) rejects a vote with a fresh commitment
whose committee position is already set, but the returned accumulator's vote
maps are not identical to before — they have gained entries for
commitment 1. -/
theorem quorum_reject_changes_vote_map :
    runQuorum (emptyQuorum 4 3 2) [(qYes0, 0)] stDemo = Sum.inl quorumDemo1 ∧
    QuorumVoteAccumulator.append quorumDemo1 qFresh 0 stDemo =
      Sum.inl quorumDemo1r ∧
    alistLookup quorumDemo1.total_vote_outcomes 1 = none ∧
    alistLookup quorumDemo1r.total_vote_outcomes 1 = some (0, []) ∧
    quorumDemo1r ≠ quorumDemo1 := by decide

/-- Any of the four rejection conditions of the view-sync append body yields
`Left` with signers, sig_lists and all tallies unchanged. -/
theorem viewsync_reject_stable (acc : ViewSyncVoteAccumulator) (v : Vote)
    (c : Nat) (ph : VSPhase) (id : Nat) (st : List Nat)
    (hrej : (alistLookup (VoteMap.votersAt acc.pre_commit_vote_outcomes c) v.key).isSome = true ∨
      (alistLookup (VoteMap.votersAt acc.commit_vote_outcomes c) v.key).isSome = true ∨
      (alistLookup (VoteMap.votersAt acc.finalize_vote_outcomes c) v.key).isSome = true ∨
      acc.signers[id]? = some true) :
    ∃ acc2, acc.appendVS v c ph id st = Sum.inl acc2 ∧
      acc2.signers = acc.signers ∧ acc2.sig_lists = acc.sig_lists ∧
      (∀ c', VoteMap.stakeAt acc2.pre_commit_vote_outcomes c' =
          VoteMap.stakeAt acc.pre_commit_vote_outcomes c' ∧
        VoteMap.votersAt acc2.pre_commit_vote_outcomes c' =
          VoteMap.votersAt acc.pre_commit_vote_outcomes c' ∧
        VoteMap.stakeAt acc2.commit_vote_outcomes c' =
          VoteMap.stakeAt acc.commit_vote_outcomes c' ∧
        VoteMap.votersAt acc2.commit_vote_outcomes c' =
          VoteMap.votersAt acc.commit_vote_outcomes c' ∧
        VoteMap.stakeAt acc2.finalize_vote_outcomes c' =
          VoteMap.stakeAt acc.finalize_vote_outcomes c' ∧
        VoteMap.votersAt acc2.finalize_vote_outcomes c' =
          VoteMap.votersAt acc.finalize_vote_outcomes c') := by
  by_cases h1 :
      (alistLookup (VoteMap.votersAt acc.pre_commit_vote_outcomes c) v.key).isSome = true
  · refine ⟨{ acc with pre_commit_vote_outcomes :=
        acc.pre_commit_vote_outcomes.materialize c },
      by simp [ViewSyncVoteAccumulator.appendVS, h1], rfl, rfl,
      fun c' => ⟨stakeAt_materialize _ _ _, votersAt_materialize _ _ _,
        rfl, rfl, rfl, rfl⟩⟩
  · by_cases h2 :
        (alistLookup (VoteMap.votersAt acc.commit_vote_outcomes c) v.key).isSome = true
    · refine ⟨{ acc with
          pre_commit_vote_outcomes := acc.pre_commit_vote_outcomes.materialize c,
          commit_vote_outcomes := acc.commit_vote_outcomes.materialize c },
        by simp [ViewSyncVoteAccumulator.appendVS, h1, h2], rfl, rfl,
        fun c' => ⟨stakeAt_materialize _ _ _, votersAt_materialize _ _ _,
          stakeAt_materialize _ _ _, votersAt_materialize _ _ _, rfl, rfl⟩⟩
    · by_cases h3 :
          (alistLookup (VoteMap.votersAt acc.finalize_vote_outcomes c) v.key).isSome = true
      · refine ⟨{ acc with
            pre_commit_vote_outcomes := acc.pre_commit_vote_outcomes.materialize c,
            commit_vote_outcomes := acc.commit_vote_outcomes.materialize c,
            finalize_vote_outcomes := acc.finalize_vote_outcomes.materialize c },
          by simp [ViewSyncVoteAccumulator.appendVS, h1, h2, h3], rfl, rfl,
          fun c' => ⟨stakeAt_materialize _ _ _, votersAt_materialize _ _ _,
            stakeAt_materialize _ _ _, votersAt_materialize _ _ _,
            stakeAt_materialize _ _ _, votersAt_materialize _ _ _⟩⟩
      · have h4 : acc.signers[id]? = some true := by tauto
        refine ⟨{ acc with
            pre_commit_vote_outcomes := acc.pre_commit_vote_outcomes.materialize c,
            commit_vote_outcomes := acc.commit_vote_outcomes.materialize c,
            finalize_vote_outcomes := acc.finalize_vote_outcomes.materialize c },
          by simp [ViewSyncVoteAccumulator.appendVS, h1, h2, h3, h4], rfl, rfl,
          fun c' => ⟨stakeAt_materialize _ _ _, votersAt_materialize _ _ _,
            stakeAt_materialize _ _ _, votersAt_materialize _ _ _,
            stakeAt_materialize _ _ _, votersAt_materialize _ _ _⟩⟩

/-- Claim C4 (corrected): whenever an accumulator's append rejects a vote —
wrong-kind tag, duplicate encoded key in a relevant inner map, or already-set
committee position — it returns `Left` with signers and sig_lists unchanged
and with every commitment's accumulated stake and inner voter map in every
vote map unchanged; the vote maps themselves may differ from before only by
materialized empty tallies for the vote's commitment. -/
theorem append_reject_preserves_state :
    (∀ (acc : DAVoteAccumulator) (v : Vote) (id : Nat) (st : List Nat),
      ((∀ c, v.data ≠ VoteData.DA c) ∨
       (∃ c, v.data = VoteData.DA c ∧
         ((alistLookup (VoteMap.votersAt acc.da_vote_outcomes c) v.key).isSome = true ∨
          acc.signers[id]? = some true))) →
      ∃ acc2, acc.append v id st = Sum.inl acc2 ∧
        acc2.signers = acc.signers ∧ acc2.sig_lists = acc.sig_lists ∧
        (∀ c, VoteMap.stakeAt acc2.da_vote_outcomes c =
            VoteMap.stakeAt acc.da_vote_outcomes c ∧
          VoteMap.votersAt acc2.da_vote_outcomes c =
            VoteMap.votersAt acc.da_vote_outcomes c)) ∧
    (∀ (acc : QuorumVoteAccumulator) (v : Vote) (id : Nat) (st : List Nat),
      ((∀ c, v.data ≠ VoteData.Yes c ∧ v.data ≠ VoteData.No c) ∨
       (∃ c, (v.data = VoteData.Yes c ∨ v.data = VoteData.No c) ∧
         ((alistLookup (VoteMap.votersAt acc.total_vote_outcomes c) v.key).isSome = true ∨
          acc.signers[id]? = some true))) →
      ∃ acc2, acc.append v id st = Sum.inl acc2 ∧
        acc2.signers = acc.signers ∧ acc2.sig_lists = acc.sig_lists ∧
        (∀ c, VoteMap.stakeAt acc2.total_vote_outcomes c =
            VoteMap.stakeAt acc.total_vote_outcomes c ∧
          VoteMap.votersAt acc2.total_vote_outcomes c =
            VoteMap.votersAt acc.total_vote_outcomes c ∧
          VoteMap.stakeAt acc2.yes_vote_outcomes c =
            VoteMap.stakeAt acc.yes_vote_outcomes c ∧
          VoteMap.votersAt acc2.yes_vote_outcomes c =
            VoteMap.votersAt acc.yes_vote_outcomes c ∧
          VoteMap.stakeAt acc2.no_vote_outcomes c =
            VoteMap.stakeAt acc.no_vote_outcomes c ∧
          VoteMap.votersAt acc2.no_vote_outcomes c =
            VoteMap.votersAt acc.no_vote_outcomes c)) ∧
    (∀ (acc : ViewSyncVoteAccumulator) (v : Vote) (id : Nat) (st : List Nat),
      ((∀ c, v.data ≠ VoteData.ViewSyncPreCommit c ∧
          v.data ≠ VoteData.ViewSyncCommit c ∧
          v.data ≠ VoteData.ViewSyncFinalize c) ∨
       (∃ c, (v.data = VoteData.ViewSyncPreCommit c ∨
          v.data = VoteData.ViewSyncCommit c ∨
          v.data = VoteData.ViewSyncFinalize c) ∧
         ((alistLookup (VoteMap.votersAt acc.pre_commit_vote_outcomes c) v.key).isSome = true ∨
          (alistLookup (VoteMap.votersAt acc.commit_vote_outcomes c) v.key).isSome = true ∨
          (alistLookup (VoteMap.votersAt acc.finalize_vote_outcomes c) v.key).isSome = true ∨
          acc.signers[id]? = some true))) →
      ∃ acc2, acc.append v id st = Sum.inl acc2 ∧
        acc2.signers = acc.signers ∧ acc2.sig_lists = acc.sig_lists ∧
        (∀ c, VoteMap.stakeAt acc2.pre_commit_vote_outcomes c =
            VoteMap.stakeAt acc.pre_commit_vote_outcomes c ∧
          VoteMap.votersAt acc2.pre_commit_vote_outcomes c =
            VoteMap.votersAt acc.pre_commit_vote_outcomes c ∧
          VoteMap.stakeAt acc2.commit_vote_outcomes c =
            VoteMap.stakeAt acc.commit_vote_outcomes c ∧
          VoteMap.votersAt acc2.commit_vote_outcomes c =
            VoteMap.votersAt acc.commit_vote_outcomes c ∧
          VoteMap.stakeAt acc2.finalize_vote_outcomes c =
            VoteMap.stakeAt acc.finalize_vote_outcomes c ∧
          VoteMap.votersAt acc2.finalize_vote_outcomes c =
            VoteMap.votersAt acc.finalize_vote_outcomes c)) := by
  refine ⟨?_, ?_, ?_⟩
  · intro acc v id st h
    rcases h with hwrong | ⟨c, hc, hrej⟩
    · cases hv : v.data
      case DA c => exact absurd hv (hwrong c)
      all_goals exact ⟨acc, by simp [DAVoteAccumulator.append, hv], rfl, rfl,
        fun c => ⟨rfl, rfl⟩⟩
    · refine ⟨{ acc with da_vote_outcomes := acc.da_vote_outcomes.materialize c },
        ?_, rfl, rfl, fun c' =>
          ⟨stakeAt_materialize _ _ _, votersAt_materialize _ _ _⟩⟩
      by_cases hdup :
          (alistLookup (VoteMap.votersAt acc.da_vote_outcomes c) v.key).isSome = true
      · simp [DAVoteAccumulator.append, hc, DAVoteAccumulator.appendDA, hdup]
      · rcases hrej with h1 | h1
        · exact absurd h1 hdup
        · simp [DAVoteAccumulator.append, hc, DAVoteAccumulator.appendDA, hdup, h1]
  · intro acc v id st h
    rcases h with hwrong | ⟨c, hc, hrej⟩
    · cases hv : v.data
      case Yes c => exact absurd hv (hwrong c).1
      case No c => exact absurd hv (hwrong c).2
      all_goals exact ⟨acc, by simp [QuorumVoteAccumulator.append, hv], rfl, rfl,
        fun c => ⟨rfl, rfl, rfl, rfl, rfl, rfl⟩⟩
    · refine ⟨acc.materializeAll c, ?_, rfl, rfl, fun c' =>
        ⟨stakeAt_materialize _ _ _, votersAt_materialize _ _ _,
         stakeAt_materialize _ _ _, votersAt_materialize _ _ _,
         stakeAt_materialize _ _ _, votersAt_materialize _ _ _⟩⟩
      have hred : ∀ isYes : Bool,
          acc.appendYN v c isYes id st = Sum.inl (acc.materializeAll c) := by
        intro isYes
        by_cases hdup :
            (alistLookup (VoteMap.votersAt acc.total_vote_outcomes c) v.key).isSome = true
        · simp [QuorumVoteAccumulator.appendYN, hdup]
        · rcases hrej with h1 | h1
          · exact absurd h1 hdup
          · simp [QuorumVoteAccumulator.appendYN, hdup, h1]
      rcases hc with hc | hc <;>
        simp [QuorumVoteAccumulator.append, hc, hred]
  · intro acc v id st h
    rcases h with hwrong | ⟨c, hc, hrej⟩
    · cases hv : v.data
      case ViewSyncPreCommit c => exact absurd hv (hwrong c).1
      case ViewSyncCommit c => exact absurd hv (hwrong c).2.1
      case ViewSyncFinalize c => exact absurd hv (hwrong c).2.2
      all_goals exact ⟨acc, by simp [ViewSyncVoteAccumulator.append, hv], rfl, rfl,
        fun c => ⟨rfl, rfl, rfl, rfl, rfl, rfl⟩⟩
    · rcases hc with hc | hc | hc <;>
        · simp only [ViewSyncVoteAccumulator.append, hc]
          exact viewsync_reject_stable acc v c _ id st hrej

/-- Witness for the amended C4: a wrong-kind (Yes) vote is silently rejected
by the DA accumulator with all tallies unchanged. -/
theorem append_reject_preserves_state_witness :
    (∀ c, qYes0.data ≠ VoteData.DA c) ∧
    (∃ acc2, DAVoteAccumulator.append (emptyDA 4 3) qYes0 0 stDemo = Sum.inl acc2 ∧
      acc2.signers = (emptyDA 4 3).signers ∧
      acc2.sig_lists = (emptyDA 4 3).sig_lists ∧
      (∀ c, VoteMap.stakeAt acc2.da_vote_outcomes c =
          VoteMap.stakeAt (emptyDA 4 3).da_vote_outcomes c ∧
        VoteMap.votersAt acc2.da_vote_outcomes c =
          VoteMap.votersAt (emptyDA 4 3).da_vote_outcomes c)) :=
  ⟨fun c h => VoteData.noConfusion h,
   append_reject_preserves_state.1 (emptyDA 4 3) qYes0 0 stDemo
     (Or.inl (fun c h => VoteData.noConfusion h))⟩

/-- Claim C5 (confirmed): the view-sync accumulator checks the voter's
encoded key against all three phase maps (pre-commit, commit, finalize)
before crediting any tally, so a vote from a voter already recorded in any
phase map for its commitment — e.g. a Commit vote after an accepted
PreCommit vote — is rejected with `Left`, contributing no stake to any
phase. -/
theorem viewsync_cross_phase_duplicate_reject (acc : ViewSyncVoteAccumulator)
    (v : Vote) (id : Nat) (st : List Nat) (c : Nat)
    (hdata : v.data = VoteData.ViewSyncPreCommit c ∨
      v.data = VoteData.ViewSyncCommit c ∨ v.data = VoteData.ViewSyncFinalize c)
    (hdup : (alistLookup (VoteMap.votersAt acc.pre_commit_vote_outcomes c) v.key).isSome = true ∨
      (alistLookup (VoteMap.votersAt acc.commit_vote_outcomes c) v.key).isSome = true ∨
      (alistLookup (VoteMap.votersAt acc.finalize_vote_outcomes c) v.key).isSome = true) :
    ∃ acc2, acc.append v id st = Sum.inl acc2 ∧
      acc2.signers = acc.signers ∧ acc2.sig_lists = acc.sig_lists ∧
      (∀ c', VoteMap.stakeAt acc2.pre_commit_vote_outcomes c' =
          VoteMap.stakeAt acc.pre_commit_vote_outcomes c' ∧
        VoteMap.votersAt acc2.pre_commit_vote_outcomes c' =
          VoteMap.votersAt acc.pre_commit_vote_outcomes c' ∧
        VoteMap.stakeAt acc2.commit_vote_outcomes c' =
          VoteMap.stakeAt acc.commit_vote_outcomes c' ∧
        VoteMap.votersAt acc2.commit_vote_outcomes c' =
          VoteMap.votersAt acc.commit_vote_outcomes c' ∧
        VoteMap.stakeAt acc2.finalize_vote_outcomes c' =
          VoteMap.stakeAt acc.finalize_vote_outcomes c' ∧
        VoteMap.votersAt acc2.finalize_vote_outcomes c' =
          VoteMap.votersAt acc.finalize_vote_outcomes c') := by
  rcases hdata with hd | hd | hd <;>
    · simp only [ViewSyncVoteAccumulator.append, hd]
      exact viewsync_reject_stable acc v c _ id st (by tauto)

/-- Witness for C5: voter 0's accepted PreCommit vote makes the same voter's
Commit vote to the same accumulator instance be rejected. -/
theorem viewsync_cross_phase_duplicate_reject_witness :
    runViewSync (emptyViewSync 4 3 2) [(vsPre0, 0)] stDemo =
      Sum.inl viewSyncDemo1 ∧
    vsCommit0.data = VoteData.ViewSyncCommit 0 ∧
    (alistLookup (VoteMap.votersAt viewSyncDemo1.pre_commit_vote_outcomes 0)
      vsCommit0.key).isSome = true ∧
    (∃ acc2, ViewSyncVoteAccumulator.append viewSyncDemo1 vsCommit0 0 stDemo =
        Sum.inl acc2 ∧
      acc2.signers = viewSyncDemo1.signers ∧
      acc2.sig_lists = viewSyncDemo1.sig_lists ∧
      (∀ c', VoteMap.stakeAt acc2.pre_commit_vote_outcomes c' =
          VoteMap.stakeAt viewSyncDemo1.pre_commit_vote_outcomes c' ∧
        VoteMap.votersAt acc2.pre_commit_vote_outcomes c' =
          VoteMap.votersAt viewSyncDemo1.pre_commit_vote_outcomes c' ∧
        VoteMap.stakeAt acc2.commit_vote_outcomes c' =
          VoteMap.stakeAt viewSyncDemo1.commit_vote_outcomes c' ∧
        VoteMap.votersAt acc2.commit_vote_outcomes c' =
          VoteMap.votersAt viewSyncDemo1.commit_vote_outcomes c' ∧
        VoteMap.stakeAt acc2.finalize_vote_outcomes c' =
          VoteMap.stakeAt viewSyncDemo1.finalize_vote_outcomes c' ∧
        VoteMap.votersAt acc2.finalize_vote_outcomes c' =
          VoteMap.votersAt viewSyncDemo1.finalize_vote_outcomes c')) :=
  ⟨by decide, rfl, by decide,
   viewsync_cross_phase_duplicate_reject viewSyncDemo1 vsCommit0 0 stDemo 0
     (Or.inr (Or.inl rfl)) (Or.inl (by decide))⟩

/-- A key with a positive lookup yields a member of the association list. -/
theorem mem_of_alistLookup_isSome {α : Type} (m : List (Nat × α)) (k : Nat)
    (h : (alistLookup m k).isSome = true) : ∃ v, (k, v) ∈ m := by
  induction m with
  | nil => simp [alistLookup] at h
  | cons p rest ih =>
    obtain ⟨k2, v2⟩ := p
    by_cases hk : k2 = k
    · subst hk; exact ⟨v2, List.mem_cons_self _ _⟩
    · simp only [alistLookup, if_neg hk] at h
      obtain ⟨v, hv⟩ := ih h
      exact ⟨v, List.mem_cons_of_mem _ hv⟩

/-- Claim C7 (confirmed): re-appending a vote whose voter key is already
recorded in the relevant inner vote map for its commitment returns `Left`
with the accumulator exactly as before — signers, sig_lists and every vote
map unchanged.  The quorum and view-sync parts assume the map
well-formedness that every reachable accumulator has (the phase tallies of a
commitment are materialized together). -/
theorem duplicate_reappend_noop :
    (∀ (acc : DAVoteAccumulator) (v : Vote) (id : Nat) (st : List Nat) (c : Nat),
      v.data = VoteData.DA c →
      (alistLookup (VoteMap.votersAt acc.da_vote_outcomes c) v.key).isSome = true →
      acc.append v id st = Sum.inl acc) ∧
    (∀ (acc : QuorumVoteAccumulator) (v : Vote) (id : Nat) (st : List Nat) (c : Nat),
      acc.wf →
      (v.data = VoteData.Yes c ∨ v.data = VoteData.No c) →
      (alistLookup (VoteMap.votersAt acc.total_vote_outcomes c) v.key).isSome = true →
      acc.append v id st = Sum.inl acc) ∧
    (∀ (acc : ViewSyncVoteAccumulator) (v : Vote) (id : Nat) (st : List Nat) (c : Nat),
      acc.wf →
      (v.data = VoteData.ViewSyncPreCommit c ∨ v.data = VoteData.ViewSyncCommit c ∨
        v.data = VoteData.ViewSyncFinalize c) →
      ((alistLookup (VoteMap.votersAt acc.pre_commit_vote_outcomes c) v.key).isSome = true ∨
       (alistLookup (VoteMap.votersAt acc.commit_vote_outcomes c) v.key).isSome = true ∨
       (alistLookup (VoteMap.votersAt acc.finalize_vote_outcomes c) v.key).isSome = true) →
      acc.append v id st = Sum.inl acc) := by
  refine ⟨?_, ?_, ?_⟩
  · intro acc v id st c hd hdup
    have houter := outer_isSome_of_votersAt _ _ _ hdup
    simp [DAVoteAccumulator.append, hd, DAVoteAccumulator.appendDA, hdup,
      materialize_of_isSome _ _ houter]
  · intro acc v id st c hwf hdata hdup
    have houter := outer_isSome_of_votersAt _ _ _ hdup
    obtain ⟨val, hmem⟩ := mem_of_alistLookup_isSome _ _ houter
    obtain ⟨hyes, hno⟩ := hwf (c, val) hmem
    rcases hdata with hd | hd <;>
      simp [QuorumVoteAccumulator.append, hd, QuorumVoteAccumulator.appendYN,
        hdup, QuorumVoteAccumulator.materializeAll,
        materialize_of_isSome _ _ houter, materialize_of_isSome _ _ hyes,
        materialize_of_isSome _ _ hno]
  · intro acc v id st c hwf hdata hdup
    rcases hdup with h1 | h2 | h3
    · have hp := outer_isSome_of_votersAt _ _ _ h1
      rcases hdata with hd | hd | hd <;>
        simp [ViewSyncVoteAccumulator.append, hd,
          ViewSyncVoteAccumulator.appendVS, h1, materialize_of_isSome _ _ hp]
    · have hcm := outer_isSome_of_votersAt _ _ _ h2
      obtain ⟨val, hmem⟩ := mem_of_alistLookup_isSome _ _ hcm
      have hpre := hwf.1 (c, val) hmem
      by_cases h1 : (alistLookup (VoteMap.votersAt acc.pre_commit_vote_outcomes c)
          v.key).isSome = true <;>
        rcases hdata with hd | hd | hd <;>
          simp [ViewSyncVoteAccumulator.append, hd,
            ViewSyncVoteAccumulator.appendVS, h1, h2,
            materialize_of_isSome _ _ hpre, materialize_of_isSome _ _ hcm]
    · have hfn := outer_isSome_of_votersAt _ _ _ h3
      obtain ⟨val, hmem⟩ := mem_of_alistLookup_isSome _ _ hfn
      obtain ⟨hpre, hcm⟩ := hwf.2 (c, val) hmem
      by_cases h1 : (alistLookup (VoteMap.votersAt acc.pre_commit_vote_outcomes c)
          v.key).isSome = true <;>
        by_cases h2 : (alistLookup (VoteMap.votersAt acc.commit_vote_outcomes c)
            v.key).isSome = true <;>
          rcases hdata with hd | hd | hd <;>
            simp [ViewSyncVoteAccumulator.append, hd,
              ViewSyncVoteAccumulator.appendVS, h1, h2, h3,
              materialize_of_isSome _ _ hpre, materialize_of_isSome _ _ hcm,
              materialize_of_isSome _ _ hfn]

/-- Witness for C7: re-appending voter 0's Yes vote to the quorum
accumulator that already recorded it returns the accumulator unchanged. -/
theorem duplicate_reappend_noop_witness :
    quorumDemo1.wf ∧
    (alistLookup (VoteMap.votersAt quorumDemo1.total_vote_outcomes 0)
      qYes0.key).isSome = true ∧
    QuorumVoteAccumulator.append quorumDemo1 qYes0 0 stDemo =
      Sum.inl quorumDemo1 :=
  ⟨by unfold QuorumVoteAccumulator.wf; decide, by decide,
   duplicate_reappend_noop.2.1 quorumDemo1 qYes0 0 stDemo 0
     (by unfold QuorumVoteAccumulator.wf; decide) (Or.inl rfl) (by decide)⟩

/-- A bitset position that is in range and not set to `true` reads back
`some false`. -/
theorem signers_unset_of_not_true (l : List Bool) (i : Nat) (h : i < l.length)
    (hne : ¬ l[i]? = some true) : l[i]? = some false := by
  have hg : l[i]? = some l[i] := List.getElem?_eq_getElem h
  cases hb : l[i] with
  | false => rw [hg, hb]
  | true => exact absurd (by rw [hg, hb]) hne

/-- Setting an unset bit increases the popcount by one. -/
theorem countTrue_set_true (l : List Bool) (i : Nat) (hi : l[i]? = some false) :
    countTrue (l.set i true) = countTrue l + 1 := by
  induction l generalizing i with
  | nil => simp at hi
  | cons b rest ih =>
    cases i with
    | zero =>
      simp only [List.getElem?_cons_zero, Option.some.injEq] at hi
      subst hi
      simp [List.set, countTrue]
      omega
    | succ i2 =>
      simp only [List.getElem?_cons_succ] at hi
      cases b <;> simp [List.set, countTrue, ih i2 hi] <;> omega

/-- The all-false bitset has popcount zero. -/
theorem countTrue_replicate_false (n : Nat) :
    countTrue (List.replicate n false) = 0 := by
  induction n with
  | zero => rfl
  | succ n2 ih => simp [List.replicate, countTrue, ih]

/-- One DA append that returns `Left` either rejects (signers and sig_lists
unchanged) or commits: it sets the previously-unset bit of the vote's
committee position and pushes that vote's decoded share. -/
theorem da_append_step_shape (acc : DAVoteAccumulator) (v : Vote) (id : Nat)
    (st : List Nat) (acc2 : DAVoteAccumulator)
    (hlt : id < acc.signers.length)
    (happ : acc.append v id st = Sum.inl acc2) :
    stepShape acc.signers acc2.signers acc.sig_lists acc2.sig_lists id v.sig := by
  cases hv : v.data <;> simp only [DAVoteAccumulator.append, hv] at happ
  case DA c =>
    simp only [DAVoteAccumulator.appendDA] at happ
    split_ifs at happ with h1 h2 h3 <;>
      first
      | exact Sum.noConfusion happ
      | (cases happ; exact Or.inl ⟨rfl, rfl⟩)
      | (cases happ
         exact Or.inr ⟨signers_unset_of_not_true _ _ hlt h2, rfl, rfl⟩)
  all_goals (cases happ; exact Or.inl ⟨rfl, rfl⟩)

/-- One quorum append that returns `Left` either rejects or commits exactly
the vote's committee position and decoded share. -/
theorem quorum_append_step_shape (acc : QuorumVoteAccumulator) (v : Vote)
    (id : Nat) (st : List Nat) (acc2 : QuorumVoteAccumulator)
    (hlt : id < acc.signers.length)
    (happ : acc.append v id st = Sum.inl acc2) :
    stepShape acc.signers acc2.signers acc.sig_lists acc2.sig_lists id v.sig := by
  cases hv : v.data <;> simp only [QuorumVoteAccumulator.append, hv] at happ
  case Yes c =>
    simp only [QuorumVoteAccumulator.appendYN] at happ
    split_ifs at happ with h1 h2 h3 h4 h5 <;>
      first
      | exact Sum.noConfusion happ
      | (cases happ; exact Or.inl ⟨rfl, rfl⟩)
      | (cases happ
         exact Or.inr ⟨signers_unset_of_not_true _ _ hlt h2, rfl, rfl⟩)
  case No c =>
    simp only [QuorumVoteAccumulator.appendYN] at happ
    split_ifs at happ with h1 h2 h3 h4 h5 <;>
      first
      | exact Sum.noConfusion happ
      | (cases happ; exact Or.inl ⟨rfl, rfl⟩)
      | (cases happ
         exact Or.inr ⟨signers_unset_of_not_true _ _ hlt h2, rfl, rfl⟩)
  all_goals (cases happ; exact Or.inl ⟨rfl, rfl⟩)

set_option maxHeartbeats 1600000 in
/-- One view-sync append that returns `Left` either rejects or commits
exactly the vote's committee position and decoded share. -/
theorem viewsync_append_step_shape (acc : ViewSyncVoteAccumulator) (v : Vote)
    (id : Nat) (st : List Nat) (acc2 : ViewSyncVoteAccumulator)
    (hlt : id < acc.signers.length)
    (happ : acc.append v id st = Sum.inl acc2) :
    stepShape acc.signers acc2.signers acc.sig_lists acc2.sig_lists id v.sig := by
  cases hv : v.data <;> simp only [ViewSyncVoteAccumulator.append, hv] at happ
  case ViewSyncPreCommit c =>
    simp only [ViewSyncVoteAccumulator.appendVS] at happ
    split_ifs at happ with h1 h2 h3 h4 h5 h6 h7 <;>
      first
      | exact Sum.noConfusion happ
      | (cases happ; exact Or.inl ⟨rfl, rfl⟩)
      | (cases happ
         exact Or.inr ⟨signers_unset_of_not_true _ _ hlt h4, rfl, rfl⟩)
  case ViewSyncCommit c =>
    simp only [ViewSyncVoteAccumulator.appendVS] at happ
    split_ifs at happ with h1 h2 h3 h4 h5 h6 h7 <;>
      first
      | exact Sum.noConfusion happ
      | (cases happ; exact Or.inl ⟨rfl, rfl⟩)
      | (cases happ
         exact Or.inr ⟨signers_unset_of_not_true _ _ hlt h4, rfl, rfl⟩)
  case ViewSyncFinalize c =>
    simp only [ViewSyncVoteAccumulator.appendVS] at happ
    split_ifs at happ with h1 h2 h3 h4 h5 h6 h7 <;>
      first
      | exact Sum.noConfusion happ
      | (cases happ; exact Or.inl ⟨rfl, rfl⟩)
      | (cases happ
         exact Or.inr ⟨signers_unset_of_not_true _ _ hlt h4, rfl, rfl⟩)
  all_goals (cases happ; exact Or.inl ⟨rfl, rfl⟩)

set_option maxHeartbeats 1600000 in
/-- One unified append that returns `Left` either rejects or commits exactly
the vote's committee position and decoded share. -/
theorem unified_append_step_shape (acc : VoteAccumulator) (c key sg : Nat)
    (entries : List Nat) (id : Nat) (vd : VoteData) (tok : Nat)
    (acc2 : VoteAccumulator)
    (hlt : id < acc.signers.length)
    (happ : acc.append c key sg entries id vd tok = some (Sum.inl acc2)) :
    stepShape acc.signers acc2.signers acc.sig_lists acc2.sig_lists id sg := by
  cases vd <;>
    (unfold VoteAccumulator.append at happ
     simp only [VoteData.isYesTag, VoteData.isNoTag, VoteData.isDATag,
       VoteData.isTimeoutTag, VoteData.isVSPreTag, VoteData.isVSCommitTag,
       VoteData.isVSFinalizeTag, eq_self_iff_true, Bool.false_eq_true, if_true,
       if_false] at happ
     split_ifs at happ with h1 h2 <;>
       first
       | exact Option.noConfusion happ
       | (injection happ with h
          exact Sum.noConfusion h)
       | (injection happ with h; injection h with h9; cases h9
          exact Or.inl ⟨rfl, rfl⟩)
       | (injection happ with h; injection h with h9; cases h9
          exact Or.inr ⟨signers_unset_of_not_true _ _ hlt h2, rfl, rfl⟩))

/-- A step of either shape preserves the popcount/length bijection and the
bitset size. -/
theorem step_bij_of_shape (sOld sNew : List Bool) (lOld lNew : List Nat)
    (id sg : Nat) (h : stepShape sOld sNew lOld lNew id sg)
    (hinv : countTrue sOld = lOld.length) :
    countTrue sNew = lNew.length ∧ sNew.length = sOld.length := by
  rcases h with ⟨h1, h2⟩ | ⟨h0, h1, h2⟩
  · subst h1; subst h2; exact ⟨hinv, rfl⟩
  · subst h1; subst h2
    refine ⟨?_, by simp⟩
    rw [countTrue_set_true _ _ h0, hinv]
    simp

/-- Invariant I2 along any DA run whose voter indices are in range. -/
theorem runDA_bij (votes : List (Vote × Nat)) (acc : DAVoteAccumulator)
    (st : List Nat)
    (hinv : countTrue acc.signers = acc.sig_lists.length)
    (hrange : ∀ p ∈ votes, p.2 < acc.signers.length) :
    bijDA (runDA acc votes st) := by
  induction votes generalizing acc with
  | nil => simpa [runDA, bijDA] using hinv
  | cons p rest ih =>
    cases happ : acc.append p.1 p.2 st with
    | inl a2 =>
      obtain ⟨h1, h2⟩ := step_bij_of_shape _ _ _ _ _ _
        (da_append_step_shape acc p.1 p.2 st a2
          (hrange p (List.mem_cons_self _ _)) happ) hinv
      have := ih a2 h1
        (fun q hq => h2 ▸ hrange q (List.mem_cons_of_mem _ hq))
      simpa [runDA, happ] using this
    | inr cert => simp [runDA, happ, bijDA]

/-- Invariant I2 along any quorum run whose voter indices are in range. -/
theorem runQuorum_bij (votes : List (Vote × Nat)) (acc : QuorumVoteAccumulator)
    (st : List Nat)
    (hinv : countTrue acc.signers = acc.sig_lists.length)
    (hrange : ∀ p ∈ votes, p.2 < acc.signers.length) :
    bijQuorum (runQuorum acc votes st) := by
  induction votes generalizing acc with
  | nil => simpa [runQuorum, bijQuorum] using hinv
  | cons p rest ih =>
    cases happ : acc.append p.1 p.2 st with
    | inl a2 =>
      obtain ⟨h1, h2⟩ := step_bij_of_shape _ _ _ _ _ _
        (quorum_append_step_shape acc p.1 p.2 st a2
          (hrange p (List.mem_cons_self _ _)) happ) hinv
      have := ih a2 h1
        (fun q hq => h2 ▸ hrange q (List.mem_cons_of_mem _ hq))
      simpa [runQuorum, happ] using this
    | inr cert => simp [runQuorum, happ, bijQuorum]

/-- Invariant I2 along any view-sync run whose voter indices are in range. -/
theorem runViewSync_bij (votes : List (Vote × Nat))
    (acc : ViewSyncVoteAccumulator) (st : List Nat)
    (hinv : countTrue acc.signers = acc.sig_lists.length)
    (hrange : ∀ p ∈ votes, p.2 < acc.signers.length) :
    bijViewSync (runViewSync acc votes st) := by
  induction votes generalizing acc with
  | nil => simpa [runViewSync, bijViewSync] using hinv
  | cons p rest ih =>
    cases happ : acc.append p.1 p.2 st with
    | inl a2 =>
      obtain ⟨h1, h2⟩ := step_bij_of_shape _ _ _ _ _ _
        (viewsync_append_step_shape acc p.1 p.2 st a2
          (hrange p (List.mem_cons_self _ _)) happ) hinv
      have := ih a2 h1
        (fun q hq => h2 ▸ hrange q (List.mem_cons_of_mem _ hq))
      simpa [runViewSync, happ] using this
    | inr cert => simp [runViewSync, happ, bijViewSync]

/-- Invariant I2 along any unified run whose voter indices are in range. -/
theorem runUnified_bij (vals : List UVal) (acc : VoteAccumulator)
    (entries : List Nat)
    (hinv : countTrue acc.signers = acc.sig_lists.length)
    (hrange : ∀ u ∈ vals, u.node_id < acc.signers.length) :
    bijUnified (runUnified acc vals entries) := by
  induction vals generalizing acc with
  | nil => simpa [runUnified, bijUnified] using hinv
  | cons u rest ih =>
    cases happ : acc.append u.commitment u.key u.sig entries u.node_id
        u.vote_data u.token with
    | none => simp [runUnified, happ, bijUnified]
    | some r =>
      cases r with
      | inl a2 =>
        obtain ⟨h1, h2⟩ := step_bij_of_shape _ _ _ _ _ _
          (unified_append_step_shape acc u.commitment u.key u.sig entries
            u.node_id u.vote_data u.token a2
            (hrange u (List.mem_cons_self _ _)) happ) hinv
        have := ih a2 h1
          (fun q hq => h2 ▸ hrange q (List.mem_cons_of_mem _ hq))
        simpa [runUnified, happ] using this
      | inr cert => simp [runUnified, happ, bijUnified]

/-- An all-false bitset and an empty signature list are explained by the
empty ledger. -/
theorem committedShares_empty (n : Nat) :
    committedShares (List.replicate n false) [] [] := by
  refine ⟨rfl, ?_, List.nodup_nil⟩
  intro i
  constructor
  · intro h
    rw [List.getElem?_replicate] at h
    split_ifs at h <;> simp_all
  · rintro ⟨p, hp, _⟩
    exact absurd hp (List.not_mem_nil p)

/-- A step of either shape keeps the state explained by a ledger: a
rejection keeps the ledger, a commitment appends the committed
`(position, share)` pair. -/
theorem committedShares_step (sOld sNew : List Bool) (lOld lNew : List Nat)
    (id sg : Nat) (sel : List (Nat × Nat))
    (hshape : stepShape sOld sNew lOld lNew id sg)
    (hw : committedShares sOld lOld sel) :
    committedShares sNew lNew sel ∨
      committedShares sNew lNew (sel ++ [(id, sg)]) := by
  obtain ⟨hsig, hbits, hnodup⟩ := hw
  rcases hshape with ⟨h1, h2⟩ | ⟨h0, h1, h2⟩
  · subst h1; subst h2; exact Or.inl ⟨hsig, hbits, hnodup⟩
  · subst h1; subst h2
    have hidlt : id < sOld.length := by
      by_contra hge
      rw [List.getElem?_eq_none (by omega)] at h0
      exact Option.noConfusion h0
    have hnotin : ∀ p ∈ sel, p.1 ≠ id := by
      intro p hp hpe
      have hb := (hbits id).mpr ⟨p, hp, hpe⟩
      rw [h0] at hb
      exact Bool.noConfusion (Option.some.inj hb)
    refine Or.inr ⟨?_, ?_, ?_⟩
    · rw [hsig]
      simp
    · intro i
      by_cases hi : id = i
      · subst hi
        constructor
        · intro _
          exact ⟨(id, sg),
            List.mem_append_right _ (List.mem_cons_self _ _), rfl⟩
        · intro _
          exact List.getElem?_set_eq_of_lt true hidlt
      · rw [List.getElem?_set_ne hi, hbits i]
        constructor
        · rintro ⟨p, hp, hpi⟩
          exact ⟨p, List.mem_append_left _ hp, hpi⟩
        · rintro ⟨p, hp, hpi⟩
          rcases List.mem_append.mp hp with hmem | hmem
          · exact ⟨p, hmem, hpi⟩
          · exfalso
            have hpe := List.mem_singleton.mp hmem
            rw [hpe] at hpi
            exact hi hpi
    · rw [List.map_append]
      simp only [List.map_cons, List.map_nil]
      rw [List.nodup_append]
      refine ⟨hnodup, List.nodup_singleton _, ?_⟩
      intro x hx hx2
      have hxid : x = id := by simpa using hx2
      obtain ⟨p, hp, hpe⟩ := List.mem_map.mp hx
      exact hnotin p hp (by rw [hpe, hxid])

/-- Every `Left` state of a DA run is explained by a ledger of committed
`(position, share)` pairs drawn from the processed votes. -/
theorem runDA_committed (votes : List (Vote × Nat)) (acc : DAVoteAccumulator)
    (st : List Nat) (sel : List (Nat × Nat))
    (hw : committedShares acc.signers acc.sig_lists sel)
    (hrange : ∀ p ∈ votes, p.2 < acc.signers.length) :
    ∀ a, runDA acc votes st = Sum.inl a →
      ∃ sel2, sel2.Sublist (sel ++ votes.map (fun p => (p.2, p.1.sig))) ∧
        committedShares a.signers a.sig_lists sel2 := by
  induction votes generalizing acc sel with
  | nil =>
    intro a ha
    simp only [runDA] at ha
    injection ha with ha2
    subst ha2
    exact ⟨sel, by simp, hw⟩
  | cons p rest ih =>
    intro a ha
    simp only [runDA] at ha
    cases happ : acc.append p.1 p.2 st with
    | inr cert => rw [happ] at ha; exact Sum.noConfusion ha
    | inl a2 =>
      rw [happ] at ha
      have hshape := da_append_step_shape acc p.1 p.2 st a2
        (hrange p (List.mem_cons_self _ _)) happ
      have hlen : a2.signers.length = acc.signers.length := by
        rcases hshape with ⟨hs1, _⟩ | ⟨_, hs1, _⟩ <;> rw [hs1] <;> simp
      have hrange2 : ∀ q ∈ rest, q.2 < a2.signers.length :=
        fun q hq => hlen ▸ hrange q (List.mem_cons_of_mem _ hq)
      rcases committedShares_step _ _ _ _ _ _ _ hshape hw with hw2 | hw2
      · obtain ⟨sel2, hsub, hcs⟩ := ih a2 sel hw2 hrange2 a ha
        refine ⟨sel2, hsub.trans ?_, hcs⟩
        rw [List.map_cons]
        exact (List.sublist_cons_self _ _).append_left sel
      · obtain ⟨sel2, hsub, hcs⟩ := ih a2 (sel ++ [(p.2, p.1.sig)]) hw2
          hrange2 a ha
        refine ⟨sel2, ?_, hcs⟩
        rw [List.map_cons]
        rw [List.append_assoc] at hsub
        simpa using hsub

/-- Every `Left` state of a quorum run is explained by a ledger of committed
`(position, share)` pairs drawn from the processed votes. -/
theorem runQuorum_committed (votes : List (Vote × Nat))
    (acc : QuorumVoteAccumulator) (st : List Nat) (sel : List (Nat × Nat))
    (hw : committedShares acc.signers acc.sig_lists sel)
    (hrange : ∀ p ∈ votes, p.2 < acc.signers.length) :
    ∀ a, runQuorum acc votes st = Sum.inl a →
      ∃ sel2, sel2.Sublist (sel ++ votes.map (fun p => (p.2, p.1.sig))) ∧
        committedShares a.signers a.sig_lists sel2 := by
  induction votes generalizing acc sel with
  | nil =>
    intro a ha
    simp only [runQuorum] at ha
    injection ha with ha2
    subst ha2
    exact ⟨sel, by simp, hw⟩
  | cons p rest ih =>
    intro a ha
    simp only [runQuorum] at ha
    cases happ : acc.append p.1 p.2 st with
    | inr cert => rw [happ] at ha; exact Sum.noConfusion ha
    | inl a2 =>
      rw [happ] at ha
      have hshape := quorum_append_step_shape acc p.1 p.2 st a2
        (hrange p (List.mem_cons_self _ _)) happ
      have hlen : a2.signers.length = acc.signers.length := by
        rcases hshape with ⟨hs1, _⟩ | ⟨_, hs1, _⟩ <;> rw [hs1] <;> simp
      have hrange2 : ∀ q ∈ rest, q.2 < a2.signers.length :=
        fun q hq => hlen ▸ hrange q (List.mem_cons_of_mem _ hq)
      rcases committedShares_step _ _ _ _ _ _ _ hshape hw with hw2 | hw2
      · obtain ⟨sel2, hsub, hcs⟩ := ih a2 sel hw2 hrange2 a ha
        refine ⟨sel2, hsub.trans ?_, hcs⟩
        rw [List.map_cons]
        exact (List.sublist_cons_self _ _).append_left sel
      · obtain ⟨sel2, hsub, hcs⟩ := ih a2 (sel ++ [(p.2, p.1.sig)]) hw2
          hrange2 a ha
        refine ⟨sel2, ?_, hcs⟩
        rw [List.map_cons]
        rw [List.append_assoc] at hsub
        simpa using hsub

/-- Every `Left` state of a view-sync run is explained by a ledger of
committed `(position, share)` pairs drawn from the processed votes. -/
theorem runViewSync_committed (votes : List (Vote × Nat))
    (acc : ViewSyncVoteAccumulator) (st : List Nat) (sel : List (Nat × Nat))
    (hw : committedShares acc.signers acc.sig_lists sel)
    (hrange : ∀ p ∈ votes, p.2 < acc.signers.length) :
    ∀ a, runViewSync acc votes st = Sum.inl a →
      ∃ sel2, sel2.Sublist (sel ++ votes.map (fun p => (p.2, p.1.sig))) ∧
        committedShares a.signers a.sig_lists sel2 := by
  induction votes generalizing acc sel with
  | nil =>
    intro a ha
    simp only [runViewSync] at ha
    injection ha with ha2
    subst ha2
    exact ⟨sel, by simp, hw⟩
  | cons p rest ih =>
    intro a ha
    simp only [runViewSync] at ha
    cases happ : acc.append p.1 p.2 st with
    | inr cert => rw [happ] at ha; exact Sum.noConfusion ha
    | inl a2 =>
      rw [happ] at ha
      have hshape := viewsync_append_step_shape acc p.1 p.2 st a2
        (hrange p (List.mem_cons_self _ _)) happ
      have hlen : a2.signers.length = acc.signers.length := by
        rcases hshape with ⟨hs1, _⟩ | ⟨_, hs1, _⟩ <;> rw [hs1] <;> simp
      have hrange2 : ∀ q ∈ rest, q.2 < a2.signers.length :=
        fun q hq => hlen ▸ hrange q (List.mem_cons_of_mem _ hq)
      rcases committedShares_step _ _ _ _ _ _ _ hshape hw with hw2 | hw2
      · obtain ⟨sel2, hsub, hcs⟩ := ih a2 sel hw2 hrange2 a ha
        refine ⟨sel2, hsub.trans ?_, hcs⟩
        rw [List.map_cons]
        exact (List.sublist_cons_self _ _).append_left sel
      · obtain ⟨sel2, hsub, hcs⟩ := ih a2 (sel ++ [(p.2, p.1.sig)]) hw2
          hrange2 a ha
        refine ⟨sel2, ?_, hcs⟩
        rw [List.map_cons]
        rw [List.append_assoc] at hsub
        simpa using hsub

/-- Every `Left` state of a unified run is explained by a ledger of
committed `(position, share)` pairs drawn from the processed inputs. -/
theorem runUnified_committed (vals : List UVal) (acc : VoteAccumulator)
    (entries : List Nat) (sel : List (Nat × Nat))
    (hw : committedShares acc.signers acc.sig_lists sel)
    (hrange : ∀ u ∈ vals, u.node_id < acc.signers.length) :
    ∀ a, runUnified acc vals entries = some (Sum.inl a) →
      ∃ sel2, sel2.Sublist (sel ++ vals.map (fun u => (u.node_id, u.sig))) ∧
        committedShares a.signers a.sig_lists sel2 := by
  induction vals generalizing acc sel with
  | nil =>
    intro a ha
    simp only [runUnified] at ha
    injection ha with ha1
    injection ha1 with ha2
    subst ha2
    exact ⟨sel, by simp, hw⟩
  | cons u rest ih =>
    intro a ha
    simp only [runUnified] at ha
    cases happ : acc.append u.commitment u.key u.sig entries u.node_id
        u.vote_data u.token with
    | none => rw [happ] at ha; exact Option.noConfusion ha
    | some r =>
      cases r with
      | inr cert =>
        rw [happ] at ha
        injection ha with ha1
        exact Sum.noConfusion ha1
      | inl a2 =>
        rw [happ] at ha
        have hshape := unified_append_step_shape acc u.commitment u.key u.sig
          entries u.node_id u.vote_data u.token a2
          (hrange u (List.mem_cons_self _ _)) happ
        have hlen : a2.signers.length = acc.signers.length := by
          rcases hshape with ⟨hs1, _⟩ | ⟨_, hs1, _⟩ <;> rw [hs1] <;> simp
        have hrange2 : ∀ q ∈ rest, q.node_id < a2.signers.length :=
          fun q hq => hlen ▸ hrange q (List.mem_cons_of_mem _ hq)
        rcases committedShares_step _ _ _ _ _ _ _ hshape hw with hw2 | hw2
        · obtain ⟨sel2, hsub, hcs⟩ := ih a2 sel hw2 hrange2 a ha
          refine ⟨sel2, hsub.trans ?_, hcs⟩
          rw [List.map_cons]
          exact (List.sublist_cons_self _ _).append_left sel
        · obtain ⟨sel2, hsub, hcs⟩ := ih a2 (sel ++ [(u.node_id, u.sig)]) hw2
            hrange2 a ha
          refine ⟨sel2, ?_, hcs⟩
          rw [List.map_cons]
          rw [List.append_assoc] at hsub
          simpa using hsub

/-- Claim C6 (confirmed): for every accumulator kind, along every sequence
of appends from an empty accumulator with voter indices inside the bitset:
after every append that returns `Left`, (a) the popcount of `signers` equals
the length of `sig_lists`, and (b) the state is explained by a ledger of
committed `(committee position, decoded share)` pairs taken from the
delivered votes — `sig_lists` is exactly the pushed shares, and a committee
position's bit is set exactly when that member's decoded share was pushed
onto `sig_lists` (each position at most once). -/
theorem signers_sig_lists_bijection :
    ((∀ (n s : Nat) (st : List Nat) (votes : List (Vote × Nat)),
      (∀ p ∈ votes, p.2 < n) → bijDA (runDA (emptyDA n s) votes st)) ∧
     (∀ (n s f : Nat) (st : List Nat) (votes : List (Vote × Nat)),
      (∀ p ∈ votes, p.2 < n) →
        bijQuorum (runQuorum (emptyQuorum n s f) votes st)) ∧
     (∀ (n s f : Nat) (st : List Nat) (votes : List (Vote × Nat)),
      (∀ p ∈ votes, p.2 < n) →
        bijViewSync (runViewSync (emptyViewSync n s f) votes st)) ∧
     (∀ (n s f : Nat) (entries : List Nat) (vals : List UVal),
      (∀ u ∈ vals, u.node_id < n) →
        bijUnified (runUnified (emptyUnified n s f) vals entries))) ∧
    ((∀ (n s : Nat) (st : List Nat) (votes : List (Vote × Nat)),
      (∀ p ∈ votes, p.2 < n) →
      ∀ a, runDA (emptyDA n s) votes st = Sum.inl a →
        ∃ sel, sel.Sublist (votes.map (fun p => (p.2, p.1.sig))) ∧
          committedShares a.signers a.sig_lists sel) ∧
     (∀ (n s f : Nat) (st : List Nat) (votes : List (Vote × Nat)),
      (∀ p ∈ votes, p.2 < n) →
      ∀ a, runQuorum (emptyQuorum n s f) votes st = Sum.inl a →
        ∃ sel, sel.Sublist (votes.map (fun p => (p.2, p.1.sig))) ∧
          committedShares a.signers a.sig_lists sel) ∧
     (∀ (n s f : Nat) (st : List Nat) (votes : List (Vote × Nat)),
      (∀ p ∈ votes, p.2 < n) →
      ∀ a, runViewSync (emptyViewSync n s f) votes st = Sum.inl a →
        ∃ sel, sel.Sublist (votes.map (fun p => (p.2, p.1.sig))) ∧
          committedShares a.signers a.sig_lists sel) ∧
     (∀ (n s f : Nat) (entries : List Nat) (vals : List UVal),
      (∀ u ∈ vals, u.node_id < n) →
      ∀ a, runUnified (emptyUnified n s f) vals entries = some (Sum.inl a) →
        ∃ sel, sel.Sublist (vals.map (fun u => (u.node_id, u.sig))) ∧
          committedShares a.signers a.sig_lists sel)) := by
  refine ⟨⟨?_, ?_, ?_, ?_⟩, ?_, ?_, ?_, ?_⟩
  · intro n s st votes hrange
    exact runDA_bij votes (emptyDA n s) st
      (by simp [emptyDA, countTrue_replicate_false])
      (by simpa [emptyDA] using hrange)
  · intro n s f st votes hrange
    exact runQuorum_bij votes (emptyQuorum n s f) st
      (by simp [emptyQuorum, countTrue_replicate_false])
      (by simpa [emptyQuorum] using hrange)
  · intro n s f st votes hrange
    exact runViewSync_bij votes (emptyViewSync n s f) st
      (by simp [emptyViewSync, countTrue_replicate_false])
      (by simpa [emptyViewSync] using hrange)
  · intro n s f entries vals hrange
    exact runUnified_bij vals (emptyUnified n s f) entries
      (by simp [emptyUnified, countTrue_replicate_false])
      (by simpa [emptyUnified] using hrange)
  · intro n s st votes hrange a ha
    obtain ⟨sel, hsub, hcs⟩ := runDA_committed votes (emptyDA n s) st []
      (committedShares_empty n) (by simpa [emptyDA] using hrange) a ha
    exact ⟨sel, by simpa using hsub, hcs⟩
  · intro n s f st votes hrange a ha
    obtain ⟨sel, hsub, hcs⟩ := runQuorum_committed votes (emptyQuorum n s f)
      st [] (committedShares_empty n) (by simpa [emptyQuorum] using hrange) a ha
    exact ⟨sel, by simpa using hsub, hcs⟩
  · intro n s f st votes hrange a ha
    obtain ⟨sel, hsub, hcs⟩ := runViewSync_committed votes
      (emptyViewSync n s f) st [] (committedShares_empty n)
      (by simpa [emptyViewSync] using hrange) a ha
    exact ⟨sel, by simpa using hsub, hcs⟩
  · intro n s f entries vals hrange a ha
    obtain ⟨sel, hsub, hcs⟩ := runUnified_committed vals (emptyUnified n s f)
      entries [] (committedShares_empty n)
      (by simpa [emptyUnified] using hrange) a ha
    exact ⟨sel, by simpa using hsub, hcs⟩

/-- Witness for C6: the two-vote DA run with in-range voter indices keeps
popcount of signers equal to the signature-list length, and its final state
is explained by a committed-share ledger drawn from the two votes. -/
theorem signers_sig_lists_bijection_witness :
    (∀ p ∈ daDemoVotes, p.2 < 4) ∧
    bijDA (runDA (emptyDA 4 3) daDemoVotes stDemo) ∧
    runDA (emptyDA 4 3) daDemoVotes stDemo = Sum.inl daDemoAcc ∧
    (∃ sel, sel.Sublist (daDemoVotes.map (fun p => (p.2, p.1.sig))) ∧
      committedShares daDemoAcc.signers daDemoAcc.sig_lists sel) :=
  ⟨by decide, signers_sig_lists_bijection.1.1 4 3 stDemo daDemoVotes (by decide),
   by decide,
   signers_sig_lists_bijection.2.1 4 3 stDemo daDemoVotes (by decide) daDemoAcc
     (by decide)⟩

/-- Counterexample to C1 as stated: the five-vote set {Yes from 0,1,2 and No
from 3,4} over one commitment, with success 3 and failure 2, fires the `Yes`
certificate when the Yes votes arrive first but fires the `No` certificate
when the two No votes arrive first — the certificate kind depends on the
delivery order. -/
theorem quorum_outcome_order_dependent :
    qcVotesA.Perm qcVotesB ∧
    resultKind (runQuorum (emptyQuorum 5 3 2) qcVotesA stDemo5) =
      some CertKind.Yes ∧
    resultKind (runQuorum (emptyQuorum 5 3 2) qcVotesB stDemo5) =
      some CertKind.No := by decide

/-- Unfolding of `daVoteWeight` over a cons. -/
theorem daVoteWeight_cons (p : Vote × Nat) (rest : List (Vote × Nat)) (c : Nat) :
    daVoteWeight (p :: rest) c =
      (if p.1.data = VoteData.DA c then p.1.token else 0) + daVoteWeight rest c := by
  simp [daVoteWeight]

/-- `daVoteWeight` only counts votes of the list, so it is invariant under
permutation. -/
theorem daVoteWeight_perm (votes1 votes2 : List (Vote × Nat)) (c : Nat)
    (h : votes1.Perm votes2) : daVoteWeight votes1 c = daVoteWeight votes2 c :=
  (h.map _).sum_eq

/-- A positive DA weight forces a DA vote on that commitment in the list. -/
theorem daVoteWeight_pos (votes : List (Vote × Nat)) (c : Nat)
    (h : 0 < daVoteWeight votes c) : ∃ p ∈ votes, p.1.data = VoteData.DA c := by
  induction votes with
  | nil => simp [daVoteWeight] at h
  | cons p rest ih =>
    rw [daVoteWeight_cons] at h
    by_cases hp : p.1.data = VoteData.DA c
    · exact ⟨p, List.mem_cons_self _ _, hp⟩
    · rw [if_neg hp] at h
      obtain ⟨q, hq, hqd⟩ := ih (by omega)
      exact ⟨q, List.mem_cons_of_mem _ hq, hqd⟩

/-- Stake tallies after a DA credit: the credited commitment gains the
vote's weight, all others are unchanged. -/
theorem da_credit_stakeAt (acc : DAVoteAccumulator) (v : Vote) (c id c' : Nat) :
    VoteMap.stakeAt (acc.credit v c id).da_vote_outcomes c' =
      VoteMap.stakeAt acc.da_vote_outcomes c' +
        (if c = c' then v.token else 0) := by
  by_cases h : c = c'
  · subst h; simp [DAVoteAccumulator.credit, stakeAt_insert]
  · simp [DAVoteAccumulator.credit, stakeAt_insert, h]

/-- Inner-map lookups of keys other than the credited voter's are
unchanged by a DA credit. -/
theorem da_credit_lookup_ne (acc : DAVoteAccumulator) (v : Vote)
    (c id c' k : Nat) (hk : k ≠ v.key) :
    alistLookup (VoteMap.votersAt (acc.credit v c id).da_vote_outcomes c') k =
      alistLookup (VoteMap.votersAt acc.da_vote_outcomes c') k := by
  have hne : v.key ≠ k := fun hh => hk hh.symm
  by_cases h : c = c'
  · subst h
    simp [DAVoteAccumulator.credit, votersAt_insert, alistLookup_insert, hne]
  · simp [DAVoteAccumulator.credit, votersAt_insert, h]

/-- Signer bits other than the credited position are unchanged by a DA
credit. -/
theorem da_credit_signers_ne (acc : DAVoteAccumulator) (v : Vote)
    (c id j : Nat) (h : id ≠ j) :
    (acc.credit v c id).signers[j]? = acc.signers[j]? := by
  simp [DAVoteAccumulator.credit, List.getElem?_set_ne h]

/-- The success threshold is unchanged by a DA credit. -/
theorem da_credit_threshold (acc : DAVoteAccumulator) (v : Vote) (c id : Nat) :
    (acc.credit v c id).success_threshold = acc.success_threshold := rfl

/-- A fresh DA vote is accepted: the append either fires the DA certificate
(when the credited tally reaches the success threshold) or returns the
credited accumulator. -/
theorem da_append_accepted (acc : DAVoteAccumulator) (v : Vote) (c id : Nat)
    (st : List Nat) (hd : v.data = VoteData.DA c)
    (hk : alistLookup (VoteMap.votersAt acc.da_vote_outcomes c) v.key = none)
    (hs : acc.signers[id]? = some false) :
    acc.append v id st =
      if VoteMap.stakeAt acc.da_vote_outcomes c + v.token ≥
          acc.success_threshold then
        Sum.inr (AssembledSignature.DA (assemble
          (getPublicParameter st acc.success_threshold)
          (acc.signers.set id true) (acc.sig_lists ++ [v.sig])))
      else Sum.inl (acc.credit v c id) := by
  simp [DAVoteAccumulator.append, hd, DAVoteAccumulator.appendDA, hk, hs,
    DAVoteAccumulator.credit]

/-- Every certificate the DA accumulator emits is a DA certificate. -/
theorem da_append_inr (acc : DAVoteAccumulator) (v : Vote) (id : Nat)
    (st : List Nat) (cert : AssembledSignature)
    (h : acc.append v id st = Sum.inr cert) : cert.kind = CertKind.DA := by
  cases hv : v.data <;> simp only [DAVoteAccumulator.append, hv] at h <;>
    first
    | exact Sum.noConfusion h
    | (simp only [DAVoteAccumulator.appendDA] at h
       split_ifs at h <;>
         first
         | exact Sum.noConfusion h
         | (injection h with h2; rw [← h2]; rfl))

/-- A run of the DA accumulator that fires produces a DA-kind certificate. -/
theorem runDA_inr_kind (votes : List (Vote × Nat)) (acc : DAVoteAccumulator)
    (st : List Nat) (cert : AssembledSignature)
    (h : runDA acc votes st = Sum.inr cert) : cert.kind = CertKind.DA := by
  induction votes generalizing acc with
  | nil => simp [runDA] at h
  | cons p rest ih =>
    rw [runDA] at h
    cases happ : acc.append p.1 p.2 st with
    | inl a2 => rw [happ] at h; exact ih a2 h
    | inr cert2 =>
      rw [happ] at h
      injection h with h2
      subst h2
      exact da_append_inr acc p.1 p.2 st cert2 happ

/-- Freshness is preserved by crediting the head vote: the remaining votes
have distinct keys and committee positions, so their lookups are unchanged. -/
theorem daFresh_credit (acc : DAVoteAccumulator) (v : Vote) (c id : Nat)
    (rest : List (Vote × Nat))
    (hfresh : daFresh acc ((v, id) :: rest))
    (hkeys : (((v, id) :: rest).map (fun p => p.1.key)).Nodup)
    (hids : (((v, id) :: rest).map Prod.snd).Nodup) :
    daFresh (acc.credit v c id) rest := by
  intro p hp
  obtain ⟨hk1, hk2, hk3⟩ := hfresh p (List.mem_cons_of_mem _ hp)
  simp only [List.map_cons] at hkeys hids
  refine ⟨hk1, ?_, ?_⟩
  · intro c'
    have hne : p.1.key ≠ v.key := by
      intro hh
      exact (List.nodup_cons.mp hkeys).1 (hh ▸ List.mem_map_of_mem _ hp)
    rw [da_credit_lookup_ne acc v c id c' p.1.key hne]
    exact hk2 c'
  · have hne : id ≠ p.2 := by
      intro hh
      exact (List.nodup_cons.mp hids).1 (hh ▸ List.mem_map_of_mem _ hp)
    rw [da_credit_signers_ne acc v c id p.2 hne]
    exact hk3

/-- Crediting a vote that does not itself reach the threshold does not
change whether the run over the remaining votes can fire. -/
theorem daFires_credit_iff (acc : DAVoteAccumulator) (v : Vote) (c id : Nat)
    (rest : List (Vote × Nat)) (hc : v.data = VoteData.DA c)
    (hlt : VoteMap.stakeAt acc.da_vote_outcomes c + v.token <
      acc.success_threshold) :
    daFires (acc.credit v c id) rest ↔ daFires acc ((v, id) :: rest) := by
  unfold daFires
  constructor
  · rintro ⟨c', ⟨p, hp, hpd⟩, hsum⟩
    refine ⟨c', ⟨p, List.mem_cons_of_mem _ hp, hpd⟩, ?_⟩
    rw [daVoteWeight_cons]
    rw [da_credit_stakeAt, da_credit_threshold] at hsum
    by_cases h : c = c'
    · subst h
      simp only [hc] at hsum ⊢
      simp at hsum ⊢
      omega
    · simp only [hc] at hsum ⊢
      simp [h] at hsum ⊢
      omega
  · rintro ⟨c', ⟨p, hp, hpd⟩, hsum⟩
    rw [daVoteWeight_cons] at hsum
    by_cases h : c = c'
    · subst h
      simp only [hc] at hsum
      simp at hsum
      have hW : 0 < daVoteWeight rest c := by omega
      obtain ⟨q, hq, hqd⟩ := daVoteWeight_pos rest c hW
      refine ⟨c, ⟨q, hq, hqd⟩, ?_⟩
      rw [da_credit_stakeAt, da_credit_threshold]
      simp
      omega
    · have hp2 : p ∈ rest := by
        rcases List.mem_cons.mp hp with he | h2
        · exfalso
          rw [he] at hpd
          simp only [hc] at hpd
          exact h (VoteData.DA.inj hpd)
        · exact h2
      refine ⟨c', ⟨p, hp2, hpd⟩, ?_⟩
      rw [da_credit_stakeAt, da_credit_threshold]
      simp only [hc] at hsum
      simp [h] at hsum ⊢
      omega

/-- `daFires` depends only on the set of votes, not their order. -/
theorem daFires_perm (acc : DAVoteAccumulator)
    (votes1 votes2 : List (Vote × Nat)) (h : votes1.Perm votes2) :
    daFires acc votes1 ↔ daFires acc votes2 := by
  unfold daFires
  constructor <;> rintro ⟨c, ⟨p, hp, hpd⟩, hsum⟩
  · exact ⟨c, ⟨p, h.mem_iff.mp hp, hpd⟩,
      by rw [← daVoteWeight_perm _ _ c h]; exact hsum⟩
  · exact ⟨c, ⟨p, h.mem_iff.mpr hp, hpd⟩,
      by rw [daVoteWeight_perm _ _ c h]; exact hsum⟩

/-- Characterization of DA-run firing: a run over fresh, pairwise-distinct
votes fires iff some commitment's initial tally plus the total weight of the
list's votes for it reaches the success threshold — an order-free
condition. -/
theorem runDA_fires_iff (votes : List (Vote × Nat)) (acc : DAVoteAccumulator)
    (st : List Nat) (hfresh : daFresh acc votes)
    (hkeys : (votes.map (fun p => p.1.key)).Nodup)
    (hids : (votes.map Prod.snd).Nodup) :
    (∃ cert, runDA acc votes st = Sum.inr cert) ↔ daFires acc votes := by
  induction votes generalizing acc with
  | nil => simp [runDA, daFires]
  | cons p rest ih =>
    obtain ⟨v, id⟩ := p
    obtain ⟨⟨c, hc⟩, hk2, hk3⟩ := hfresh (v, id) (List.mem_cons_self _ _)
    have happ := da_append_accepted acc v c id st hc (hk2 c) hk3
    by_cases hth : VoteMap.stakeAt acc.da_vote_outcomes c + v.token ≥
        acc.success_threshold
    · rw [if_pos hth] at happ
      simp only [runDA, happ]
      constructor
      · intro _
        refine ⟨c, ⟨(v, id), List.mem_cons_self _ _, hc⟩, ?_⟩
        rw [daVoteWeight_cons]
        have hc2 : v.data = VoteData.DA c := hc
        simp [hc2]
        omega
      · intro _
        exact ⟨_, rfl⟩
    · rw [if_neg hth] at happ
      simp only [runDA, happ]
      simp only [List.map_cons] at hkeys hids
      rw [ih (acc.credit v c id)
        (daFresh_credit acc v c id rest hfresh
          (by simpa using hkeys) (by simpa using hids))
        (List.nodup_cons.mp hkeys).2 (List.nodup_cons.mp hids).2]
      exact daFires_credit_iff acc v c id rest hc (by omega)

/-- Claim C1 (corrected, restricted to the DA accumulator): for any two
permutations of the same set of pairwise non-duplicate DA votes with voter
indices inside the bitset, running the DA accumulator until it fires
produces the same outcome kind — both orders fire the DA certificate or
neither fires.  (For the Quorum and ViewSync accumulators the claim is
false; see the counterexample.) -/
theorem da_outcome_order_independent (votes1 votes2 : List (Vote × Nat))
    (st : List Nat) (n s : Nat) (hperm : votes1.Perm votes2)
    (hkinds : ∀ p ∈ votes1, ∃ c, p.1.data = VoteData.DA c)
    (hkeys : (votes1.map (fun p => p.1.key)).Nodup)
    (hids : (votes1.map Prod.snd).Nodup)
    (hrange : ∀ p ∈ votes1, p.2 < n) :
    resultKind (runDA (emptyDA n s) votes1 st) =
      resultKind (runDA (emptyDA n s) votes2 st) := by
  have hfresh1 : daFresh (emptyDA n s) votes1 := by
    intro p hp
    refine ⟨hkinds p hp, ?_, ?_⟩
    · intro c
      simp [emptyDA, VoteMap.votersAt, alistLookup]
    · simp [emptyDA, List.getElem?_replicate, hrange p hp]
  have hfresh2 : daFresh (emptyDA n s) votes2 := fun p hp =>
    hfresh1 p (hperm.mem_iff.mpr hp)
  have hkeys2 := ((hperm.map (fun p => p.1.key)).nodup_iff).mp hkeys
  have hids2 := ((hperm.map Prod.snd).nodup_iff).mp hids
  have hiff1 := runDA_fires_iff votes1 (emptyDA n s) st hfresh1 hkeys hids
  have hiff2 := runDA_fires_iff votes2 (emptyDA n s) st hfresh2 hkeys2 hids2
  have hfire := daFires_perm (emptyDA n s) votes1 votes2 hperm
  by_cases hf : daFires (emptyDA n s) votes1
  · obtain ⟨cert1, h1⟩ := hiff1.mpr hf
    obtain ⟨cert2, h2⟩ := hiff2.mpr (hfire.mp hf)
    rw [h1, h2]
    simp [resultKind, runDA_inr_kind _ _ _ _ h1, runDA_inr_kind _ _ _ _ h2]
  · cases hr1 : runDA (emptyDA n s) votes1 st with
    | inr cert => exact absurd (hiff1.mp ⟨cert, hr1⟩) hf
    | inl a1 =>
      cases hr2 : runDA (emptyDA n s) votes2 st with
      | inr cert =>
        exact absurd (hiff2.mp ⟨cert, hr2⟩) (fun hh => hf (hfire.mpr hh))
      | inl a2 => rfl

/-- Witness for the amended C1: two orders of the same two-vote DA set give
the same outcome kind. -/
theorem da_outcome_order_independent_witness :
    daPermVotes1.Perm daPermVotes2 ∧
    resultKind (runDA (emptyDA 4 2) daPermVotes1 stDemo) =
      resultKind (runDA (emptyDA 4 2) daPermVotes2 stDemo) :=
  ⟨by decide,
   da_outcome_order_independent daPermVotes1 daPermVotes2 stDemo 4 2
     (by decide)
     (by intro p hp
         rcases List.mem_cons.mp hp with h | h
         · exact ⟨0, by rw [h]⟩
         · rcases List.mem_cons.mp h with h2 | h2
           · exact ⟨0, by rw [h2]⟩
           · cases h2)
     (by decide) (by decide) (by decide)⟩
